import Mathlib

/-!
Shallow embedding of the JSON tokenizer `src/jsmn.h` of the FlipWiFi
repository (jsmn by Serge Zaitsev plus the `jsoneq` / `get_json_value`
glue added at the bottom of the header), together with theorems about
the properties stated in the specification.

Conventions of the embedding:
* The input buffer `js` is a `List Char`; each `Char` stands for one
  byte of the C buffer.  Out-of-range reads yield the NUL byte, which
  matches the C code because every read is guarded by `pos < len` and
  the buffers handed to the glue layer are NUL-terminated.
* The token pool is modelled as the list of slots allocated so far, so
  `parser.toknext` always equals the length of the list; the capacity
  `num_tokens` is a separate argument.  A NULL token array (the
  documented dry-run mode) is `none`.
* `int` results are `Int`; the error codes keep their C names.
* Each C loop whose cursor strictly advances is written as structural
  recursion on a fuel argument; the entry points pass fuel `len + 1`,
  which is strictly more than the number of iterations any run can
  perform, so the fuel-exhaustion branch is unreachable from them.
* `unsigned` decrements `parser->pos--` are Nat subtractions; they are
  only reached at positions `≥ 1` when called from `jsmn_parse`, where
  the two semantics agree.
* The compile-time options `JSMN_PARENT_LINKS` and `JSMN_STRICT` are
  not defined when the repository compiles `jsmn.h`, so the embedding
  follows the default (non-strict, no parent links) code paths.
-/

namespace Jsmn

/-- JSON type identifier (`jsmntype_t`). -/
inductive Jsmntype where
  | JSMN_UNDEFINED
  | JSMN_OBJECT
  | JSMN_ARRAY
  | JSMN_STRING
  | JSMN_PRIMITIVE
deriving Repr, DecidableEq

/-- Error code `JSMN_ERROR_NOMEM`: not enough tokens were provided. -/
def JSMN_ERROR_NOMEM : Int := -1

/-- Error code `JSMN_ERROR_INVAL`: invalid character inside JSON string. -/
def JSMN_ERROR_INVAL : Int := -2

/-- Error code `JSMN_ERROR_PART`: not a full JSON packet, more bytes expected. -/
def JSMN_ERROR_PART : Int := -3

/-- JSON token description (`jsmntok_t`): type, half-open byte span
`[start, end)` and number of immediate children (`size`). -/
structure Jsmntok where
  type : Jsmntype
  start : Int
  end_ : Int
  size : Int
deriving Repr, DecidableEq

/-- Parser state (`jsmn_parser`): offset in the JSON string, next token to
allocate, and index of the superior (enclosing) token or `-1`. -/
structure JsmnParser where
  pos : Nat
  toknext : Nat
  toksuper : Int
deriving Repr, DecidableEq

/-- Read a byte of the input buffer; out of range gives NUL (all reads of
the C code are guarded by `pos < len`). -/
def jsGet (js : List Char) (pos : Nat) : Char := js.getD pos '\x00'

/-- Read a slot of the token pool (all reads of the C code are at indices
below `toknext`, hence in range of the allocated list). -/
def getTok (toks : List Jsmntok) (i : Nat) : Jsmntok :=
  toks.getD i { type := .JSMN_UNDEFINED, start := -1, end_ := -1, size := 0 }

/-- Write through a slot of the token pool, like `tokens[i].field = ...`. -/
def updTok (toks : List Jsmntok) (i : Nat) (f : Jsmntok → Jsmntok) : List Jsmntok :=
  toks.set i (f (getTok toks i))

/-- `jsmn_init`: resets position, next token and superior token. -/
def jsmn_init : JsmnParser := { pos := 0, toknext := 0, toksuper := -1 }

/-- `jsmn_alloc_token`: allocates a fresh unused token from the pool, with
`start = end = -1` and `size = 0`, or fails when the capacity is reached.
The fresh slot is appended, keeping `toknext` equal to the list length. -/
def jsmn_alloc_token (parser : JsmnParser) (tokens : List Jsmntok)
    (num_tokens : Nat) : Option (JsmnParser × List Jsmntok) :=
  if num_tokens ≤ parser.toknext then none
  else some ({ parser with toknext := parser.toknext + 1 },
    tokens ++ [{ type := .JSMN_UNDEFINED, start := -1, end_ := -1, size := 0 }])

/-- `jsmn_fill_token`: fills token type and boundaries and clears `size`. -/
def jsmn_fill_token (token : Jsmntok) (t : Jsmntype) (s e : Int) : Jsmntok :=
  { token with type := t, start := s, end_ := e, size := 0 }

/-- Scan loop of `jsmn_parse_primitive` (lines 152-177 of `jsmn.h`,
non-strict mode): starting at `pos`, returns `some f` with `f` the
position where the loop stops (a delimiter, end of buffer, or NUL), or
`none` for `JSMN_ERROR_INVAL` on a byte outside printable ASCII. -/
def primLoopF (js : List Char) (len : Nat) : Nat → Nat → Option Nat
  | 0, pos => some pos
  | fuel + 1, pos =>
    if pos < len ∧ jsGet js pos ≠ '\x00' then
      if jsGet js pos = ':' ∨ jsGet js pos = '\t' ∨ jsGet js pos = '\r' ∨
          jsGet js pos = '\n' ∨ jsGet js pos = ' ' ∨ jsGet js pos = ',' ∨
          jsGet js pos = ']' ∨ jsGet js pos = '}' then
        some pos
      else if (jsGet js pos).toNat < 32 ∨ 127 ≤ (jsGet js pos).toNat then
        none
      else
        primLoopF js len fuel (pos + 1)
    else some pos

/-- `jsmn_parse_primitive`: fills the next available token with a JSON
primitive.  Returns the C `int` result together with the updated parser
state and token pool. -/
def jsmn_parse_primitive (parser : JsmnParser) (js : List Char) (len : Nat)
    (tokens : Option (List Jsmntok)) (num_tokens : Nat) :
    Int × JsmnParser × Option (List Jsmntok) :=
  let start := parser.pos
  match primLoopF js len (len + 1) start with
  | none => (JSMN_ERROR_INVAL, { parser with pos := start }, tokens)
  | some f =>
    match tokens with
    | none => (0, { parser with pos := f - 1 }, none)
    | some toks =>
      match jsmn_alloc_token { parser with pos := f } toks num_tokens with
      | none => (JSMN_ERROR_NOMEM, { parser with pos := start }, some toks)
      | some (p1, toks1) =>
        (0, { p1 with pos := f - 1 },
          some (updTok toks1 parser.toknext
            (fun t => jsmn_fill_token t .JSMN_PRIMITIVE (start : Int) (f : Int))))

/-- Hex-digit check loop of the `\uXXXX` escape (lines 262-274 of
`jsmn.h`): checks up to 4 bytes from `pos`, stopping early at end of
buffer or NUL; returns the final position, or `none` for
`JSMN_ERROR_INVAL` on a non-hex byte. -/
def hexLoop (js : List Char) (len : Nat) : Nat → Nat → Option Nat
  | 0, pos => some pos
  | j + 1, pos =>
    if pos < len ∧ jsGet js pos ≠ '\x00' then
      if (48 ≤ (jsGet js pos).toNat ∧ (jsGet js pos).toNat ≤ 57) ∨
          (65 ≤ (jsGet js pos).toNat ∧ (jsGet js pos).toNat ≤ 70) ∨
          (97 ≤ (jsGet js pos).toNat ∧ (jsGet js pos).toNat ≤ 102) then
        hexLoop js len j (pos + 1)
      else none
    else some pos

/-- Outcome of the string scan loop: closing quote found at a position,
invalid escape, or end of buffer reached. -/
inductive StrScan where
  | close (q : Nat)
  | inval
  | part
deriving Repr, DecidableEq

/-- Scan loop of `jsmn_parse_string` (lines 218-283 of `jsmn.h`): from
the byte after the opening quote, find the unescaped closing quote while
validating escape sequences. -/
def strLoopF (js : List Char) (len : Nat) : Nat → Nat → StrScan
  | 0, _ => .part
  | fuel + 1, pos =>
    if pos < len ∧ jsGet js pos ≠ '\x00' then
      if jsGet js pos = '"' then .close pos
      else if jsGet js pos = '\\' ∧ pos + 1 < len then
        if jsGet js (pos + 1) = '"' ∨ jsGet js (pos + 1) = '/' ∨
            jsGet js (pos + 1) = '\\' ∨ jsGet js (pos + 1) = 'b' ∨
            jsGet js (pos + 1) = 'f' ∨ jsGet js (pos + 1) = 'r' ∨
            jsGet js (pos + 1) = 'n' ∨ jsGet js (pos + 1) = 't' then
          strLoopF js len fuel (pos + 2)
        else if jsGet js (pos + 1) = 'u' then
          match hexLoop js len 4 (pos + 2) with
          | none => .inval
          | some p2 => strLoopF js len fuel p2
        else .inval
      else strLoopF js len fuel (pos + 1)
    else .part

/-- `jsmn_parse_string`: fills the next token with a JSON string.  On
`JSMN_ERROR_INVAL` / `JSMN_ERROR_PART` / `JSMN_ERROR_NOMEM` the cursor is
rewound to the opening quote. -/
def jsmn_parse_string (parser : JsmnParser) (js : List Char) (len : Nat)
    (tokens : Option (List Jsmntok)) (num_tokens : Nat) :
    Int × JsmnParser × Option (List Jsmntok) :=
  let start := parser.pos
  match strLoopF js len (len + 1) (start + 1) with
  | .inval => (JSMN_ERROR_INVAL, { parser with pos := start }, tokens)
  | .part => (JSMN_ERROR_PART, { parser with pos := start }, tokens)
  | .close q =>
    match tokens with
    | none => (0, { parser with pos := q }, none)
    | some toks =>
      match jsmn_alloc_token { parser with pos := q } toks num_tokens with
      | none => (JSMN_ERROR_NOMEM, { parser with pos := start }, some toks)
      | some (p1, toks1) =>
        (0, p1,
          some (updTok toks1 parser.toknext
            (fun t => jsmn_fill_token t .JSMN_STRING ((start : Int) + 1) (q : Int))))

/-- Backward scan `for (i = n - 1; i >= 0; i--)` looking for the first
token with `start != -1 && end == -1` (used for closing brackets and the
end-of-parse check of `jsmn_parse`). -/
def findOpen (toks : List Jsmntok) : Nat → Option Nat
  | 0 => none
  | i + 1 =>
    if (getTok toks i).start ≠ -1 ∧ (getTok toks i).end_ = -1 then some i
    else findOpen toks i

/-- Backward scan of the `,` case of `jsmn_parse` (lines 432-442):
looks for the innermost still-open Object or Array token. -/
def findOpenContainer (toks : List Jsmntok) : Nat → Option Nat
  | 0 => none
  | i + 1 =>
    if ((getTok toks i).type = .JSMN_ARRAY ∨ (getTok toks i).type = .JSMN_OBJECT) ∧
        ((getTok toks i).start ≠ -1 ∧ (getTok toks i).end_ = -1) then some i
    else findOpenContainer toks i

/-- Main loop of `jsmn_parse` (lines 299-508 of `jsmn.h`, non-strict
mode, no parent links), one fuel unit per iteration of the outer `for`;
after the loop, the end-of-parse check for unmatched opened containers. -/
def parseLoopF (js : List Char) (len : Nat) (num_tokens : Nat) :
    Nat → JsmnParser → Option (List Jsmntok) → Int →
    Int × JsmnParser × Option (List Jsmntok)
  | 0, parser, tokens, _ => (JSMN_ERROR_PART, parser, tokens)
  | fuel + 1, parser, tokens, count =>
    if parser.pos < len ∧ jsGet js parser.pos ≠ '\x00' then
      if jsGet js parser.pos = '{' ∨ jsGet js parser.pos = '[' then
        match tokens with
        | none =>
          parseLoopF js len num_tokens fuel
            { parser with pos := parser.pos + 1 } none (count + 1)
        | some toks =>
          match jsmn_alloc_token parser toks num_tokens with
          | none => (JSMN_ERROR_NOMEM, parser, some toks)
          | some (p1, toks1) =>
            let toks2 := if parser.toksuper ≠ -1 then
                updTok toks1 parser.toksuper.toNat
                  (fun t => { t with size := t.size + 1 })
              else toks1
            let toks3 := updTok toks2 parser.toknext
              (fun t => { t with
                type := if jsGet js parser.pos = '{' then Jsmntype.JSMN_OBJECT
                  else Jsmntype.JSMN_ARRAY,
                start := (parser.pos : Int) })
            parseLoopF js len num_tokens fuel
              { p1 with pos := parser.pos + 1, toksuper := (parser.toknext : Int) }
              (some toks3) (count + 1)
      else if jsGet js parser.pos = '}' ∨ jsGet js parser.pos = ']' then
        match tokens with
        | none =>
          parseLoopF js len num_tokens fuel
            { parser with pos := parser.pos + 1 } none count
        | some toks =>
          match findOpen toks parser.toknext with
          | none => (JSMN_ERROR_INVAL, parser, some toks)
          | some i =>
            if (getTok toks i).type ≠
                (if jsGet js parser.pos = '}' then Jsmntype.JSMN_OBJECT
                  else Jsmntype.JSMN_ARRAY) then
              (JSMN_ERROR_INVAL, parser, some toks)
            else
              let toks2 := updTok toks i
                (fun t => { t with end_ := (parser.pos : Int) + 1 })
              let super2 : Int := match findOpen toks2 (i + 1) with
                | some j => (j : Int)
                | none => -1
              parseLoopF js len num_tokens fuel
                { parser with pos := parser.pos + 1, toksuper := super2 }
                (some toks2) count
      else if jsGet js parser.pos = '"' then
        let r := jsmn_parse_string parser js len tokens num_tokens
        if r.1 < 0 then r
        else
          let p1 := r.2.1
          let toks2 : Option (List Jsmntok) := match r.2.2 with
            | none => none
            | some ts =>
              some (if p1.toksuper ≠ -1 then
                  updTok ts p1.toksuper.toNat (fun t => { t with size := t.size + 1 })
                else ts)
          parseLoopF js len num_tokens fuel
            { p1 with pos := p1.pos + 1 } toks2 (count + 1)
      else if jsGet js parser.pos = '\t' ∨ jsGet js parser.pos = '\r' ∨
          jsGet js parser.pos = '\n' ∨ jsGet js parser.pos = ' ' then
        parseLoopF js len num_tokens fuel
          { parser with pos := parser.pos + 1 } tokens count
      else if jsGet js parser.pos = ':' then
        parseLoopF js len num_tokens fuel
          { parser with
            pos := parser.pos + 1
            toksuper := (parser.toknext : Int) - 1 } tokens count
      else if jsGet js parser.pos = ',' then
        let super1 : Int := match tokens with
          | none => parser.toksuper
          | some toks =>
            if parser.toksuper ≠ -1 ∧
                (getTok toks parser.toksuper.toNat).type ≠ .JSMN_ARRAY ∧
                (getTok toks parser.toksuper.toNat).type ≠ .JSMN_OBJECT then
              match findOpenContainer toks parser.toknext with
              | some i => (i : Int)
              | none => parser.toksuper
            else parser.toksuper
        parseLoopF js len num_tokens fuel
          { parser with pos := parser.pos + 1, toksuper := super1 } tokens count
      else
        let r := jsmn_parse_primitive parser js len tokens num_tokens
        if r.1 < 0 then r
        else
          let p1 := r.2.1
          let toks2 : Option (List Jsmntok) := match r.2.2 with
            | none => none
            | some ts =>
              some (if p1.toksuper ≠ -1 then
                  updTok ts p1.toksuper.toNat (fun t => { t with size := t.size + 1 })
                else ts)
          parseLoopF js len num_tokens fuel
            { p1 with pos := p1.pos + 1 } toks2 (count + 1)
    else
      match tokens with
      | none => (count, parser, none)
      | some toks =>
        if (findOpen toks parser.toknext).isSome then
          (JSMN_ERROR_PART, parser, some toks)
        else (count, parser, some toks)

/-- `jsmn_parse`: runs the main loop with sufficient fuel (the cursor
strictly advances at every iteration, so `len + 1` units are never
exhausted) starting from `count = parser.toknext`. -/
def jsmn_parse (parser : JsmnParser) (js : List Char) (len : Nat)
    (tokens : Option (List Jsmntok)) (num_tokens : Nat) :
    Int × JsmnParser × Option (List Jsmntok) :=
  parseLoopF js len num_tokens (len + 1) parser tokens (parser.toknext : Int)

/-- Length of a NUL-terminated C string (`strlen`). -/
def cstrlen (s : List Char) : Nat := (s.takeWhile (fun c => c ≠ '\x00')).length

/-- Result of `strncmp(a, b, n) == 0`: the first `n` bytes agree, where a
common NUL terminates the comparison early. -/
def strncmpEq : List Char → List Char → Nat → Bool
  | _, _, 0 => true
  | a, b, n + 1 =>
    if a.headD '\x00' = b.headD '\x00' then
      if a.headD '\x00' = '\x00' then true
      else strncmpEq (a.drop 1) (b.drop 1) n
    else false

/-- `jsoneq`: compares the byte span of a token to a key, returning `0`
when the token is a String whose span has exactly the key's length and
bytes, and `-1` otherwise. -/
def jsoneq (json : List Char) (tok : Jsmntok) (s : List Char) : Int :=
  if tok.type = .JSMN_STRING ∧ ((cstrlen s : Int) = tok.end_ - tok.start) ∧
      strncmpEq (json.drop tok.start.toNat) s (tok.end_ - tok.start).toNat = true then 0
  else -1

/-- C string produced by `malloc(length+1)`, `strncpy(value, json + start,
length)`, `value[length] = 0`: the bytes of the span cut at the first NUL. -/
def strncpyVal (json : List Char) (a b : Int) : List Char :=
  ((json.drop a.toNat).take (b - a).toNat).takeWhile (fun c => c ≠ '\x00')

/-- Key-searching loop of `get_json_value` (lines 585-604 of `jsmn.h`):
`for (i = 1; i < ret; i++)`, returning at the first `jsoneq` match a copy
of the bytes spanned by the following token (or `none` when the `malloc`
for the value fails, modelled by `alloc_value_ok = false`).  The fuel is
the number of remaining iterations, with the loop bound kept explicit. -/
def gjvScan (json_data key : List Char) (toks : List Jsmntok) (ret : Int)
    (alloc_value_ok : Bool) : Nat → Nat → Option (List Char)
  | 0, _ => none
  | rem + 1, i =>
    if (i : Int) < ret then
      if jsoneq json_data (getTok toks i) key = 0 then
        if alloc_value_ok then
          some (strncpyVal json_data (getTok toks (i + 1)).start
            (getTok toks (i + 1)).end_)
        else none
      else gjvScan json_data key toks ret alloc_value_ok rem (i + 1)
    else none

/-- `get_json_value`: parses `json_data` with an internally allocated pool
of `max_tokens` tokens and returns a fresh copy of the value bytes of the
first String token matching `key`, or `none` (NULL) on a NULL input, a
failed allocation, a parse error, a non-Object root, or a missing key.
The two `malloc` calls of the C code are modelled by the oracle booleans
`alloc_tokens_ok` (token pool) and `alloc_value_ok` (value copy). -/
def get_json_value (alloc_tokens_ok alloc_value_ok : Bool) (key : List Char)
    (json_data : Option (List Char)) (max_tokens : Nat) : Option (List Char) :=
  match json_data with
  | none => none
  | some jd =>
    if alloc_tokens_ok then
      let pr := jsmn_parse jsmn_init jd (cstrlen jd) (some []) max_tokens
      if pr.1 < 0 then none
      else if pr.1 < 1 ∨ (getTok (pr.2.2.getD []) 0).type ≠ .JSMN_OBJECT then none
      else gjvScan jd key (pr.2.2.getD []) pr.1 alloc_value_ok pr.1.toNat 1
    else none

/-- Result code of a `get_json_value`-style parse from a fresh state over
a NUL-terminated buffer (used to phrase theorems about the glue layer). -/
def parse_ret (jd : List Char) (cap : Nat) : Int :=
  (jsmn_parse jsmn_init jd (cstrlen jd) (some []) cap).1

/-- Token pool of a `get_json_value`-style parse from a fresh state. -/
def parse_toks (jd : List Char) (cap : Nat) : List Jsmntok :=
  (jsmn_parse jsmn_init jd (cstrlen jd) (some []) cap).2.2.getD []

/-- Concrete input of the nesting-correctness property:
`{"a":[1,2,{"b":true}]}`. -/
def c2js : List Char :=
  ['{','"','a','"',':','[','1',',','2',',','{','"','b','"',':','t','r','u','e','}',']','}']

/-- Concrete flat object `{"a":1}`. -/
def c3js : List Char := ['{','"','a','"',':','1','}']

/-- Concrete nested object `{"x":{"k":1}}`: the key `k` only occurs one
level down, inside the value of `x`. -/
def c4js : List Char := ['{','"','x','"',':','{','"','k','"',':','1','}','}']

/-- Concrete top-level array `["a"]`: its parse succeeds, the root token
is an Array, and token 1 is a String token spanning `a`. -/
def c10js : List Char := ['[','"','a','"',']']

/-! ### Specification-side grammar of valid JSON documents

Modelled from the spec (testable property 1): a valid JSON document
together with the token list a correct tokenizer must produce — one
token per structural or leaf element, in order of allocation, with
byte-exact `[start, end)` spans (quotes excluded for strings) and
`size` the number of immediate children. -/

/-- Whitespace bytes skipped by the tokenizer. -/
def wsByte (c : Char) : Prop := c = '\t' ∨ c = '\r' ∨ c = '\n' ∨ c = ' '

/-- Delimiter bytes that terminate an unquoted primitive. -/
def delimByte (c : Char) : Prop :=
  c = ':' ∨ c = '\t' ∨ c = '\r' ∨ c = '\n' ∨ c = ' ' ∨ c = ',' ∨ c = ']' ∨ c = '}'

/-- Region `[a, b)` of whitespace bytes. -/
def Ws (js : List Char) (a b : Nat) : Prop :=
  a ≤ b ∧ ∀ k, a ≤ k → k < b → wsByte (jsGet js k)

/-- Bytes that may occur in an unquoted primitive (number, boolean or
null): printable ASCII that is none of the structural, quote or
whitespace characters.  Every byte of a valid JSON number or literal
satisfies this. -/
def primByte (c : Char) : Prop :=
  32 ≤ c.toNat ∧ c.toNat < 127 ∧
  c ≠ '{' ∧ c ≠ '[' ∧ c ≠ '}' ∧ c ≠ ']' ∧ c ≠ '"' ∧ c ≠ ':' ∧ c ≠ ',' ∧ c ≠ ' '

/-- Hex-digit bytes accepted after `\u`. -/
def hexByte (c : Char) : Prop :=
  (48 ≤ c.toNat ∧ c.toNat ≤ 57) ∨ (65 ≤ c.toNat ∧ c.toNat ≤ 70) ∨
  (97 ≤ c.toNat ∧ c.toNat ≤ 102)

/-- Valid JSON string content occupying `[a, b)` between the quotes:
plain bytes (anything but quote, backslash and NUL), two-byte escapes,
and `\uXXXX` escapes with exactly 4 hex digits. -/
inductive SContent (js : List Char) : Nat → Nat → Prop where
  | nil (a : Nat) : SContent js a a
  | plain (a b : Nat) : jsGet js a ≠ '"' → jsGet js a ≠ '\\' → jsGet js a ≠ '\x00' →
      SContent js (a + 1) b → SContent js a b
  | esc (a b : Nat) : jsGet js a = '\\' →
      (jsGet js (a + 1) = '"' ∨ jsGet js (a + 1) = '/' ∨ jsGet js (a + 1) = '\\' ∨
        jsGet js (a + 1) = 'b' ∨ jsGet js (a + 1) = 'f' ∨ jsGet js (a + 1) = 'r' ∨
        jsGet js (a + 1) = 'n' ∨ jsGet js (a + 1) = 't') →
      SContent js (a + 2) b → SContent js a b
  | uesc (a b : Nat) : jsGet js a = '\\' → jsGet js (a + 1) = 'u' →
      (∀ i, i < 4 → hexByte (jsGet js (a + 2 + i))) →
      SContent js (a + 6) b → SContent js a b

/-- Syntactic sorts of the grammar: a single value, the inside of an
array (elements up to the closing bracket) and the inside of an object
(members up to the closing brace). -/
inductive JForm where
  | value
  | elems
  | membs
deriving Repr, DecidableEq

/-- `J js f a b n tv`: the region `[a, b)` of `js` is valid JSON of sort
`f` with `n` immediate children (0 for a single value) and `tv` the
token list a correct tokenizer emits for it, in order of allocation.
For `elems`/`membs`, `b` is the position of the closing bracket. -/
inductive J (js : List Char) : JForm → Nat → Nat → Nat → List Jsmntok → Prop where
  | prim (a b : Nat) : a < b →
      (∀ k, a ≤ k → k < b → primByte (jsGet js k)) →
      J js .value a b 0
        [{ type := .JSMN_PRIMITIVE, start := (a : Int), end_ := (b : Int), size := 0 }]
  | str (a b : Nat) : jsGet js a = '"' → SContent js (a + 1) b → jsGet js b = '"' →
      J js .value a (b + 1) 0
        [{ type := .JSMN_STRING, start := (a : Int) + 1, end_ := (b : Int), size := 0 }]
  | arr (a b n : Nat) (tv : List Jsmntok) : jsGet js a = '[' →
      J js .elems (a + 1) b n tv → jsGet js b = ']' →
      J js .value a (b + 1) 0
        ({ type := .JSMN_ARRAY, start := (a : Int), end_ := (b : Int) + 1,
           size := (n : Int) } :: tv)
  | obj (a b n : Nat) (tv : List Jsmntok) : jsGet js a = '{' →
      J js .membs (a + 1) b n tv → jsGet js b = '}' →
      J js .value a (b + 1) 0
        ({ type := .JSMN_OBJECT, start := (a : Int), end_ := (b : Int) + 1,
           size := (n : Int) } :: tv)
  | enil (a b : Nat) : Ws js a b → J js .elems a b 0 []
  | eone (a c d b : Nat) (tv : List Jsmntok) : Ws js a c → J js .value c d 0 tv →
      Ws js d b → J js .elems a b 1 tv
  | econs (a c d e b n : Nat) (tv tvs : List Jsmntok) : Ws js a c →
      J js .value c d 0 tv → Ws js d e → jsGet js e = ',' →
      J js .elems (e + 1) b n tvs → 1 ≤ n →
      J js .elems a b (n + 1) (tv ++ tvs)
  | mnil (a b : Nat) : Ws js a b → J js .membs a b 0 []
  | mone (a c d e f g b : Nat) (tv : List Jsmntok) : Ws js a c →
      jsGet js c = '"' → SContent js (c + 1) d → jsGet js d = '"' →
      Ws js (d + 1) e → jsGet js e = ':' → Ws js (e + 1) f →
      J js .value f g 0 tv → Ws js g b →
      J js .membs a b 1
        ({ type := .JSMN_STRING, start := (c : Int) + 1, end_ := (d : Int), size := 1 } :: tv)
  | mcons (a c d e f g h2 b n : Nat) (tv tvs : List Jsmntok) : Ws js a c →
      jsGet js c = '"' → SContent js (c + 1) d → jsGet js d = '"' →
      Ws js (d + 1) e → jsGet js e = ':' → Ws js (e + 1) f →
      J js .value f g 0 tv → Ws js g h2 → jsGet js h2 = ',' →
      J js .membs (h2 + 1) b n tvs → 1 ≤ n →
      J js .membs a b (n + 1)
        ({ type := .JSMN_STRING, start := (c : Int) + 1, end_ := (d : Int), size := 1 }
          :: (tv ++ tvs))

/-- Index of the innermost open token as the C code stores it in
`toksuper`: the index itself, or `-1` when there is none. -/
def oInt : Option Nat → Int
  | some j => (j : Int)
  | none => -1

/-- Parent-size bookkeeping done at the first token of every value:
`tokens[toksuper].size++` when a superior token exists. -/
def sizeIncr (toks : List Jsmntok) (sup : Int) : List Jsmntok :=
  if sup ≠ -1 then updTok toks sup.toNat (fun t => { t with size := t.size + 1 }) else toks

/-- Motive of the simulation proof: what running the main loop from the
start of a region of each syntactic sort does to the parser state, the
token pool and the running count, for any enclosing context. -/
def JMotive (js : List Char) (len cap : Nat) :
    JForm → Nat → Nat → Nat → List Jsmntok → Prop
  | .value, a, b, _, tv =>
    ∀ (P : List Jsmntok) (tn : Nat) (sup : Int) (count : Int) (f f2 : Nat),
      P.length = tn →
      (sup ≠ -1 → sup.toNat < P.length) →
      P.length + tv.length ≤ cap → b ≤ len →
      (b = len ∨ delimByte (jsGet js b)) →
      len - a < f → len - b < f2 →
      ∃ sup2 : Int, (sup2 = sup ∨ sup2 = oInt (findOpen P tn)) ∧
        parseLoopF js len cap f { pos := a, toknext := tn, toksuper := sup }
            (some P) count =
          parseLoopF js len cap f2
            { pos := b, toknext := tn + tv.length, toksuper := sup2 }
            (some (sizeIncr P sup ++ tv)) (count + (tv.length : Int))
  | .elems, a, b, n, tv =>
    ∀ (Q : List Jsmntok) (qn : Nat) (ct : Jsmntok) (R : List Jsmntok) (tn : Nat)
      (count : Int) (f f2 : Nat),
      Q.length = qn → tn = qn + 1 + R.length →
      ct.start ≠ -1 → ct.end_ = -1 → ct.type = Jsmntype.JSMN_ARRAY →
      (∀ t ∈ R, t.start ≠ -1 ∧ t.end_ ≠ -1) →
      tn + tv.length ≤ cap → b ≤ len →
      delimByte (jsGet js b) →
      len - a < f → len - b < f2 →
      parseLoopF js len cap f
          { pos := a, toknext := tn, toksuper := (qn : Int) }
          (some (Q ++ ct :: R)) count =
        parseLoopF js len cap f2
          { pos := b, toknext := tn + tv.length,
            toksuper := (qn : Int) }
          (some (Q ++ { ct with size := ct.size + (n : Int) } :: (R ++ tv)))
          (count + (tv.length : Int))
  | .membs, a, b, n, tv =>
    ∀ (Q : List Jsmntok) (qn : Nat) (ct : Jsmntok) (R : List Jsmntok) (tn : Nat)
      (count : Int) (f f2 : Nat),
      Q.length = qn → tn = qn + 1 + R.length →
      ct.start ≠ -1 → ct.end_ = -1 → ct.type = Jsmntype.JSMN_OBJECT →
      (∀ t ∈ R, t.start ≠ -1 ∧ t.end_ ≠ -1) →
      tn + tv.length ≤ cap → b ≤ len →
      delimByte (jsGet js b) →
      len - a < f → len - b < f2 →
      ∃ sup2 : Int,
        parseLoopF js len cap f
            { pos := a, toknext := tn, toksuper := (qn : Int) }
            (some (Q ++ ct :: R)) count =
          parseLoopF js len cap f2
            { pos := b, toknext := tn + tv.length, toksuper := sup2 }
            (some (Q ++ { ct with size := ct.size + (n : Int) } :: (R ++ tv)))
            (count + (tv.length : Int))

/-- Concrete document for the C1 witness. -/
def c1js : List Char := ['{', '"', 'a', '"', ':', '1', '}']

/-! ### Helper lemmas about the token pool and the backward scans -/

lemma updTok_length (toks : List Jsmntok) (i : Nat) (f : Jsmntok → Jsmntok) :
    (updTok toks i f).length = toks.length :=
  List.length_set toks i _

lemma getTok_mem {toks : List Jsmntok} {i : Nat} (h : i < toks.length) :
    getTok toks i ∈ toks := by
  rw [getTok, List.getD_eq_getElem _ _ h]
  exact List.getElem_mem h

lemma mem_updTok {toks : List Jsmntok} {i : Nat} {f : Jsmntok → Jsmntok} {t : Jsmntok}
    (h : t ∈ updTok toks i f) :
    t ∈ toks ∨ (i < toks.length ∧ t = f (getTok toks i)) := by
  by_cases hi : i < toks.length
  · rcases List.mem_or_eq_of_mem_set h with h1 | h2
    · exact Or.inl h1
    · exact Or.inr ⟨hi, h2⟩
  · rw [updTok, List.set_eq_of_length_le (le_of_not_lt hi)] at h
    exact Or.inl h

lemma set_append_length (l : List Jsmntok) (d v : Jsmntok) :
    (l ++ [d]).set l.length v = l ++ [v] := by
  induction l with
  | nil => rfl
  | cons a l ih => simp [ih]

lemma set_append_left (l : List Jsmntok) (d v : Jsmntok) (i : Nat) (h : i < l.length) :
    (l ++ [d]).set i v = l.set i v ++ [d] := by
  induction l generalizing i with
  | nil => cases h
  | cons a l ih =>
    cases i with
    | zero => rfl
    | succ i => simpa using ih i (by simpa using h)

lemma getTok_append_length (l : List Jsmntok) (d : Jsmntok) :
    getTok (l ++ [d]) l.length = d := by
  rw [getTok, List.getD_eq_getElem]
  · simp
  · simp

lemma getTok_append_left {l : List Jsmntok} (d : Jsmntok) {i : Nat} (h : i < l.length) :
    getTok (l ++ [d]) i = getTok l i := by
  rw [getTok, getTok, List.getD_eq_getElem _ _ h,
    List.getD_eq_getElem _ _ (by simp; omega)]
  exact List.getElem_append_left h

lemma updTok_append_length (l : List Jsmntok) (d : Jsmntok) (f : Jsmntok → Jsmntok) :
    updTok (l ++ [d]) l.length f = l ++ [f d] := by
  rw [updTok, getTok_append_length, set_append_length]

lemma updTok_append_left (l : List Jsmntok) (d : Jsmntok) (f : Jsmntok → Jsmntok)
    {i : Nat} (h : i < l.length) :
    updTok (l ++ [d]) i f = updTok l i f ++ [d] := by
  rw [updTok, updTok, getTok_append_left d h, set_append_left _ _ _ _ h]

lemma getTok_updTok_ne {toks : List Jsmntok} {i j : Nat} (f : Jsmntok → Jsmntok)
    (h : i ≠ j) : getTok (updTok toks i f) j = getTok toks j := by
  conv_lhs => rw [updTok, getTok, List.getD_eq_getElem?_getD, List.getElem?_set_ne h]
  rw [getTok, List.getD_eq_getElem?_getD]

lemma findOpen_lt {toks : List Jsmntok} : ∀ {n i : Nat}, findOpen toks n = some i → i < n := by
  intro n
  induction n with
  | zero => intro i h; simp [findOpen] at h
  | succ n ih =>
    intro i h
    rw [findOpen] at h
    by_cases hc : (getTok toks n).start ≠ -1 ∧ (getTok toks n).end_ = -1
    · rw [if_pos hc] at h
      cases h
      exact Nat.lt_succ_self n
    · rw [if_neg hc] at h
      exact Nat.lt_succ_of_lt (ih h)

lemma findOpen_none {toks : List Jsmntok} :
    ∀ {n : Nat}, findOpen toks n = none →
      ∀ j, j < n → ¬((getTok toks j).start ≠ -1 ∧ (getTok toks j).end_ = -1) := by
  intro n
  induction n with
  | zero => intro _ j hj; omega
  | succ n ih =>
    intro h j hj
    rw [findOpen] at h
    by_cases hc : (getTok toks n).start ≠ -1 ∧ (getTok toks n).end_ = -1
    · rw [if_pos hc] at h; cases h
    · rw [if_neg hc] at h
      rcases Nat.lt_succ_iff_lt_or_eq.mp hj with hj' | hj'
      · exact ih h j hj'
      · subst hj'; exact hc

lemma findOpenContainer_lt {toks : List Jsmntok} :
    ∀ {n i : Nat}, findOpenContainer toks n = some i → i < n := by
  intro n
  induction n with
  | zero => intro i h; simp [findOpenContainer] at h
  | succ n ih =>
    intro i h
    rw [findOpenContainer] at h
    by_cases hc : ((getTok toks n).type = .JSMN_ARRAY ∨ (getTok toks n).type = .JSMN_OBJECT) ∧
        ((getTok toks n).start ≠ -1 ∧ (getTok toks n).end_ = -1)
    · rw [if_pos hc] at h
      cases h
      exact Nat.lt_succ_self n
    · rw [if_neg hc] at h
      exact Nat.lt_succ_of_lt (ih h)

/-! ### String scanner lemmas -/

lemma strLoopF_part_of_clean (js : List Char) (len : Nat) :
    ∀ (fuel pos : Nat),
      (∀ k, k < len → pos ≤ k →
        jsGet js k ≠ '"' ∧ jsGet js k ≠ '\x00' ∧ jsGet js k ≠ '\\') →
      strLoopF js len fuel pos = .part := by
  intro fuel
  induction fuel with
  | zero => intro pos _; rfl
  | succ n ih =>
    intro pos h
    rw [strLoopF]
    by_cases hc : pos < len ∧ jsGet js pos ≠ '\x00'
    · rw [if_pos hc]
      have hk := h pos hc.1 le_rfl
      rw [if_neg hk.1, if_neg (fun hh => hk.2.2 hh.1)]
      exact ih (pos + 1) (fun k hk1 hk2 => h k hk1 (Nat.le_of_succ_le hk2))
    · rw [if_neg hc]

lemma strLoopF_u_escape_inval (c : Char) (rest : List Char) (len fuel : Nat)
    (hlen : 4 ≤ len) (hc : c ≠ '\x00')
    (hhex : ¬((48 ≤ c.toNat ∧ c.toNat ≤ 57) ∨ (65 ≤ c.toNat ∧ c.toNat ≤ 70) ∨
      (97 ≤ c.toNat ∧ c.toNat ≤ 102))) :
    strLoopF ('"' :: '\\' :: 'u' :: c :: rest) len (fuel + 1) 1 = .inval := by
  have e0 : jsGet ('"' :: '\\' :: 'u' :: c :: rest) 1 = '\\' := rfl
  have e1 : jsGet ('"' :: '\\' :: 'u' :: c :: rest) (1 + 1) = 'u' := rfl
  have e2 : jsGet ('"' :: '\\' :: 'u' :: c :: rest) (1 + 2) = c := rfl
  have hhl : hexLoop ('"' :: '\\' :: 'u' :: c :: rest) len 4 (1 + 2) = none := by
    rw [hexLoop, if_pos ⟨by omega, by rw [e2]; exact hc⟩, if_neg (by rw [e2]; exact hhex)]
  rw [strLoopF, if_pos ⟨by omega, by rw [e0]; decide⟩, if_neg (by rw [e0]; decide),
    if_pos ⟨e0, by omega⟩, if_neg (by rw [e1]; decide), if_pos e1, hhl]

/-! ### Lemmas about the key-search loop of `get_json_value` -/

lemma gjvScan_none (jd key : List Char) (toks : List Jsmntok) (ret : Int) (avb : Bool) :
    ∀ (rem i : Nat),
      (∀ j, i ≤ j → (j : Int) < ret → jsoneq jd (getTok toks j) key ≠ 0) →
      gjvScan jd key toks ret avb rem i = none := by
  intro rem
  induction rem with
  | zero => intro i _; rfl
  | succ n ih =>
    intro i h
    rw [gjvScan]
    by_cases hlt : (i : Int) < ret
    · rw [if_pos hlt, if_neg (h i le_rfl hlt)]
      exact ih (i + 1) (fun j hj hjr => h j (Nat.le_of_succ_le hj) hjr)
    · rw [if_neg hlt]

lemma gjvScan_found (jd key : List Char) (toks : List Jsmntok) (ret : Int) :
    ∀ (rem i j : Nat), i ≤ j → (j : Int) < ret →
      (∀ k, i ≤ k → k < j → jsoneq jd (getTok toks k) key ≠ 0) →
      jsoneq jd (getTok toks j) key = 0 →
      ret.toNat ≤ rem + i →
      gjvScan jd key toks ret true rem i =
        some (strncpyVal jd (getTok toks (j + 1)).start (getTok toks (j + 1)).end_) := by
  intro rem
  induction rem with
  | zero =>
    intro i j hij hjr _ _ hfuel
    exfalso
    have hj : j < ret.toNat := Int.lt_toNat.mpr hjr
    omega
  | succ n ih =>
    intro i j hij hjr hbefore hmatch hfuel
    rw [gjvScan]
    have hi : (i : Int) < ret := lt_of_le_of_lt (by exact_mod_cast hij) hjr
    rw [if_pos hi]
    rcases Nat.eq_or_lt_of_le hij with heq | hlt
    · subst heq
      rw [if_pos hmatch]
      rfl
    · rw [if_neg (hbefore i le_rfl hlt)]
      exact ih (i + 1) j hlt hjr (fun k hk1 hk2 => hbefore k (Nat.le_of_succ_le hk1) hk2)
        hmatch (by omega)

/-! ### Claim theorems -/

/-- C2: parsing `{"a":[1,2,{"b":true}]}` with a fresh state and a pool of
sufficient capacity succeeds, and the outer Object token has `size` 1,
the Array token has `size` 3, and the inner Object token has `size` 1. -/
theorem spec_C2 :
    0 ≤ (jsmn_parse jsmn_init c2js c2js.length (some []) 16).1 ∧
    (getTok ((jsmn_parse jsmn_init c2js c2js.length (some []) 16).2.2.getD []) 0).type =
      .JSMN_OBJECT ∧
    (getTok ((jsmn_parse jsmn_init c2js c2js.length (some []) 16).2.2.getD []) 0).size = 1 ∧
    (getTok ((jsmn_parse jsmn_init c2js c2js.length (some []) 16).2.2.getD []) 2).type =
      .JSMN_ARRAY ∧
    (getTok ((jsmn_parse jsmn_init c2js c2js.length (some []) 16).2.2.getD []) 2).size = 3 ∧
    (getTok ((jsmn_parse jsmn_init c2js c2js.length (some []) 16).2.2.getD []) 5).type =
      .JSMN_OBJECT ∧
    (getTok ((jsmn_parse jsmn_init c2js c2js.length (some []) 16).2.2.getD []) 5).size = 1 := by
  decide

lemma jsmn_parse_string_result (parser : JsmnParser) (js : List Char) (len : Nat)
    (tokens : Option (List Jsmntok)) (cap : Nat) :
    jsmn_parse_string parser js len tokens cap = (JSMN_ERROR_PART, parser, tokens) ∨
    jsmn_parse_string parser js len tokens cap = (JSMN_ERROR_INVAL, parser, tokens) ∨
    (jsmn_parse_string parser js len tokens cap).1 = JSMN_ERROR_NOMEM ∨
    (jsmn_parse_string parser js len tokens cap).1 = 0 := by
  rw [jsmn_parse_string]
  cases strLoopF js len (len + 1) (parser.pos + 1) with
  | part => exact Or.inl rfl
  | inval => exact Or.inr (Or.inl rfl)
  | close q =>
    cases tokens with
    | none => exact Or.inr (Or.inr (Or.inr rfl))
    | some toks =>
      dsimp only
      cases jsmn_alloc_token { parser with pos := q } toks cap with
      | none => exact Or.inr (Or.inr (Or.inl rfl))
      | some pt =>
        obtain ⟨p1, toks1⟩ := pt
        exact Or.inr (Or.inr (Or.inr rfl))

/-- C8: whenever the string scanner reaches the end of the buffer without
finding an unescaped closing quote it returns `JSMN_ERROR_PART` with the
cursor rewound to the opening quote, leaving parser state and token pool
exactly as at entry; in particular a `JSMN_ERROR_PART` result always comes
with an unchanged state, and a remainder free of quotes, NULs and
backslashes always produces `JSMN_ERROR_PART`. -/
theorem spec_C8 (parser : JsmnParser) (js : List Char) (len : Nat)
    (tokens : Option (List Jsmntok)) (cap : Nat) :
    ((jsmn_parse_string parser js len tokens cap).1 = JSMN_ERROR_PART →
      jsmn_parse_string parser js len tokens cap = (JSMN_ERROR_PART, parser, tokens)) ∧
    ((∀ k, k < len → parser.pos + 1 ≤ k →
        jsGet js k ≠ '"' ∧ jsGet js k ≠ '\x00' ∧ jsGet js k ≠ '\\') →
      (jsmn_parse_string parser js len tokens cap).1 = JSMN_ERROR_PART) := by
  constructor
  · intro hp
    rcases jsmn_parse_string_result parser js len tokens cap with h | h | h | h
    · exact h
    · rw [h] at hp
      simp [JSMN_ERROR_INVAL, JSMN_ERROR_PART] at hp
    · rw [h] at hp
      simp [JSMN_ERROR_NOMEM, JSMN_ERROR_PART] at hp
    · rw [h] at hp
      simp [JSMN_ERROR_PART] at hp
  · intro hclean
    rw [jsmn_parse_string, strLoopF_part_of_clean js len (len + 1) (parser.pos + 1) hclean]

/-- C8 witness: the input `"abc` (opening quote, no closing quote) makes
the string scanner fail with `JSMN_ERROR_PART`. -/
theorem spec_C8_witness :
    (jsmn_parse_string jsmn_init ['"', 'a', 'b', 'c'] 4 none 0).1 = JSMN_ERROR_PART :=
  (spec_C8 jsmn_init ['"', 'a', 'b', 'c'] 4 none 0).2 (by decide)

/-- C9 counterexample: for the input `"\u12` — a `\u` escape followed by
fewer than 4 hex digits because the buffer ends — the scanner returns
`JSMN_ERROR_PART`, not `JSMN_ERROR_INVAL` as the claim states. -/
theorem spec_C9_counterexample :
    (jsmn_parse_string jsmn_init ['"', '\\', 'u', '1', '2'] 5 (some []) 4).1 =
      JSMN_ERROR_PART ∧
    JSMN_ERROR_PART ≠ JSMN_ERROR_INVAL := by
  decide

/-- C9 (amended): whenever the string scanner fails with
`JSMN_ERROR_INVAL` — in particular when a `\u` escape is followed, within
the buffer and before a NUL, by a non-hex byte among the next 4 bytes —
the cursor is rewound to the string's start, leaving the state as at
entry; a `\u` escape cut short by the end of the buffer (or a NUL)
instead makes the whole string fail with `JSMN_ERROR_PART`. -/
theorem spec_C9_amended :
    (∀ (parser : JsmnParser) (js : List Char) (len : Nat)
        (tokens : Option (List Jsmntok)) (cap : Nat),
      (jsmn_parse_string parser js len tokens cap).1 = JSMN_ERROR_INVAL →
      jsmn_parse_string parser js len tokens cap = (JSMN_ERROR_INVAL, parser, tokens)) ∧
    (∀ (c : Char) (rest : List Char) (tn : Nat) (ts : Int)
        (tokens : Option (List Jsmntok)) (cap len : Nat),
      4 ≤ len → c ≠ '\x00' →
      ¬((48 ≤ c.toNat ∧ c.toNat ≤ 57) ∨ (65 ≤ c.toNat ∧ c.toNat ≤ 70) ∨
        (97 ≤ c.toNat ∧ c.toNat ≤ 102)) →
      jsmn_parse_string ⟨0, tn, ts⟩ ('"' :: '\\' :: 'u' :: c :: rest) len tokens cap =
        (JSMN_ERROR_INVAL, ⟨0, tn, ts⟩, tokens)) := by
  constructor
  · intro parser js len tokens cap hp
    rcases jsmn_parse_string_result parser js len tokens cap with h | h | h | h
    · rw [h] at hp
      simp [JSMN_ERROR_INVAL, JSMN_ERROR_PART] at hp
    · exact h
    · rw [h] at hp
      simp [JSMN_ERROR_NOMEM, JSMN_ERROR_INVAL] at hp
    · rw [h] at hp
      simp [JSMN_ERROR_INVAL] at hp
  · intro c rest tn ts tokens cap len hlen hc hhex
    rw [jsmn_parse_string]
    have hpos : (⟨0, tn, ts⟩ : JsmnParser).pos + 1 = 1 := rfl
    rw [hpos, strLoopF_u_escape_inval c rest len len hlen hc hhex]

/-- C9 witness: a `\u` escape followed in-buffer by the non-hex byte `g`
fails with `JSMN_ERROR_INVAL` and leaves the parser state unchanged. -/
theorem spec_C9_witness :
    jsmn_parse_string ⟨0, 0, -1⟩ ['"', '\\', 'u', 'g'] 4 none 0 =
      (JSMN_ERROR_INVAL, ⟨0, 0, -1⟩, none) :=
  spec_C9_amended.2 'g' [] 0 (-1) none 0 4 (by decide) (by decide) (by decide)

/-- C6 counterexample: for the input `{`, the dry-run parse (NULL pool)
returns the count 1, but the real parse with a pool of capacity 1 (at
least that count) does not return that count — it fails with
`JSMN_ERROR_PART` — so dry run and real parse do not agree on every
input. -/
theorem spec_C6_counterexample :
    (jsmn_parse jsmn_init ['{'] 1 none 0).1 = 1 ∧
    (jsmn_parse jsmn_init ['{'] 1 (some []) 1).1 = JSMN_ERROR_PART ∧
    JSMN_ERROR_PART ≠ (1 : Int) := by
  decide

/-- C3 counterexample: with the flat object `{"a":1}` and the key `b`,
the internal-allocation-failure run and the key-not-found run of
`get_json_value` both return NULL — the caller cannot tell the two
failure cases apart from the returned result. -/
theorem spec_C3_counterexample :
    get_json_value false true ['b'] (some c3js) 8 = none ∧
    get_json_value true true ['b'] (some c3js) 8 = none := by
  decide

/-- C3 (amended): `get_json_value` returns NULL both on internal
allocation failure and when no String token matches the key, so the two
failure outcomes are not distinguishable from the returned result (they
differ only in the log message). -/
theorem spec_C3_amended :
    (∀ (key jd : List Char) (cap : Nat) (avb : Bool),
      get_json_value false avb key (some jd) cap = none) ∧
    (∀ (key jd : List Char) (cap : Nat),
      (∀ i, i < (parse_ret jd cap).toNat → 1 ≤ i →
        jsoneq jd (getTok (parse_toks jd cap) i) key ≠ 0) →
      get_json_value true true key (some jd) cap = none) := by
  constructor
  · intro key jd cap avb
    rfl
  · intro key jd cap h
    simp only [parse_ret, parse_toks] at h
    rw [get_json_value, if_pos rfl]
    by_cases h0 : (jsmn_parse jsmn_init jd (cstrlen jd) (some []) cap).1 < 0
    · rw [if_pos h0]
    · rw [if_neg h0]
      by_cases h1 : (jsmn_parse jsmn_init jd (cstrlen jd) (some []) cap).1 < 1 ∨
          (getTok ((jsmn_parse jsmn_init jd (cstrlen jd) (some []) cap).2.2.getD []) 0).type ≠
            .JSMN_OBJECT
      · rw [if_pos h1]
      · rw [if_neg h1]
        exact gjvScan_none _ _ _ _ _ _ 1
          (fun j hj hjr => h j (Int.lt_toNat.mpr hjr) hj)

/-- C3 witness: on `{"a":1}` with the absent key `z`, the key-not-found
outcome of `get_json_value` is NULL. -/
theorem spec_C3_witness :
    get_json_value true true ['z'] (some c3js) 8 = none :=
  spec_C3_amended.2 ['z'] c3js 8 (by decide)

/-- C4 counterexample: on the nested object `{"x":{"k":1}}` with key `k`,
`get_json_value` returns the value `1` of the *nested* key: the only
token matching the key is token 3, which lies strictly inside the non-root
container token 2, so it is not a top-level String token of the root
object, yet the lookup returns a value — the scan is not restricted to
top-level keys as the claim states. -/
theorem spec_C4_counterexample :
    get_json_value true true ['k'] (some c4js) 8 = some ['1'] ∧
    parse_ret c4js 8 = 5 ∧
    (∀ i, i < 5 → jsoneq c4js (getTok (parse_toks c4js 8) i) ['k'] = 0 → i = 3) ∧
    (getTok (parse_toks c4js 8) 2).type = .JSMN_OBJECT ∧
    (getTok (parse_toks c4js 8) 2).start ≤ (getTok (parse_toks c4js 8) 3).start ∧
    (getTok (parse_toks c4js 8) 3).end_ ≤ (getTok (parse_toks c4js 8) 2).end_ := by
  decide

/-- C4 (amended): the lookup loop of `get_json_value` scans *all* tokens
of the parsed array in index order (at any nesting depth), comparing each
token's byte span to the key by exact length and byte equality via
`jsoneq`, and at the first match returns a freshly allocated copy of the
bytes spanned by the token immediately following the matched token. -/
theorem spec_C4_amended (key jd : List Char) (cap : Nat) (j : Nat)
    (h1 : 1 ≤ j) (hjr : (j : Int) < parse_ret jd cap)
    (hroot : (getTok (parse_toks jd cap) 0).type = .JSMN_OBJECT)
    (hbefore : ∀ k, 1 ≤ k → k < j → jsoneq jd (getTok (parse_toks jd cap) k) key ≠ 0)
    (hmatch : jsoneq jd (getTok (parse_toks jd cap) j) key = 0) :
    get_json_value true true key (some jd) cap =
      some (strncpyVal jd (getTok (parse_toks jd cap) (j + 1)).start
        (getTok (parse_toks jd cap) (j + 1)).end_) := by
  simp only [parse_ret, parse_toks] at hjr hroot hbefore hmatch ⊢
  have hj0 : (1 : Int) ≤ (j : Int) := by exact_mod_cast h1
  have hj1 : (1 : Int) < (jsmn_parse jsmn_init jd (cstrlen jd) (some []) cap).1 :=
    lt_of_le_of_lt hj0 hjr
  rw [get_json_value, if_pos rfl, if_neg (by omega), if_neg (by
    push_neg
    exact ⟨by omega, hroot⟩)]
  exact gjvScan_found _ _ _ _ _ 1 j h1 hjr hbefore hmatch (by omega)

/-- C4 witness: on the flat object `{"a":1}` with key `a`, the first
match is token 1 and the returned copy is the span of token 2, `1`. -/
theorem spec_C4_witness :
    get_json_value true true ['a'] (some c3js) 8 = some ['1'] := by
  have h := spec_C4_amended ['a'] c3js 8 1 le_rfl (by decide) (by decide)
    (fun k hk1 hk2 => absurd (Nat.lt_of_le_of_lt hk1 hk2) (Nat.lt_irrefl 1))
    (by decide)
  rw [h]
  decide

/-- C10: when the internal parse of `get_json_value` succeeds but yields
zero tokens (empty input) or a root token that is not an Object, the
lookup returns NULL regardless of the key. -/
theorem spec_C10 (key jd : List Char) (cap : Nat) (avb : Bool)
    (h0 : 0 ≤ parse_ret jd cap)
    (h1 : parse_ret jd cap < 1 ∨ (getTok (parse_toks jd cap) 0).type ≠ .JSMN_OBJECT) :
    get_json_value true avb key (some jd) cap = none := by
  simp only [parse_ret, parse_toks] at h0 h1
  rw [get_json_value, if_pos rfl, if_neg (not_lt.mpr h0), if_pos h1]

/-- Lockstep simulation of a real parse by a dry run: the cursor and the
count evolve identically in the two modes (the scanners advance the
cursor independently of the pool), so whenever the real parse from a
state succeeds, the dry run from a state with the same cursor returns
the same count. -/
lemma parseLoop_dry (js : List Char) (len cap : Nat) :
    ∀ (fuel : Nat) (parserR : JsmnParser) (toks : List Jsmntok) (count : Int)
      (parserD : JsmnParser),
      parserD.pos = parserR.pos →
      0 ≤ (parseLoopF js len cap fuel parserR (some toks) count).1 →
      (parseLoopF js len 0 fuel parserD none count).1 =
        (parseLoopF js len cap fuel parserR (some toks) count).1 := by
  intro fuel
  induction fuel with
  | zero =>
    intro parserR toks count parserD _ hr
    simp [parseLoopF, JSMN_ERROR_PART] at hr
  | succ n ih =>
    intro parserR toks count parserD hpos hr
    obtain ⟨dpos, dnext, dsuper⟩ := parserD
    dsimp only at hpos
    subst hpos
    simp only [parseLoopF] at hr ⊢
    by_cases hc : parserR.pos < len ∧ jsGet js parserR.pos ≠ '\x00'
    case neg =>
      simp only [if_neg hc] at hr ⊢
      by_cases hf : (findOpen toks parserR.toknext).isSome
      · rw [if_pos hf] at hr
        simp [JSMN_ERROR_PART] at hr
      · simp only [if_neg hf] at hr ⊢
    simp only [if_pos hc] at hr ⊢
    by_cases h1 : jsGet js parserR.pos = '{' ∨ jsGet js parserR.pos = '['
    · simp only [if_pos h1] at hr ⊢
      simp only [jsmn_alloc_token] at hr ⊢
      by_cases hcap : cap ≤ parserR.toknext
      · rw [if_pos hcap] at hr
        simp [JSMN_ERROR_NOMEM] at hr
      · simp only [if_neg hcap] at hr ⊢
        refine ih _ _ _ _ ?_ hr
        rfl
    simp only [if_neg h1] at hr ⊢
    by_cases h2 : jsGet js parserR.pos = '}' ∨ jsGet js parserR.pos = ']'
    · simp only [if_pos h2] at hr ⊢
      cases hfo : findOpen toks parserR.toknext with
      | none =>
        rw [hfo] at hr
        simp [JSMN_ERROR_INVAL] at hr
      | some i =>
        rw [hfo] at hr
        dsimp only at hr ⊢
        by_cases h3 : (getTok toks i).type ≠
            (if jsGet js parserR.pos = '}' then Jsmntype.JSMN_OBJECT else Jsmntype.JSMN_ARRAY)
        · rw [if_pos h3] at hr
          simp [JSMN_ERROR_INVAL] at hr
        · simp only [if_neg h3] at hr ⊢
          refine ih _ _ _ _ ?_ hr
          rfl
    simp only [if_neg h2] at hr ⊢
    by_cases h3 : jsGet js parserR.pos = '"'
    · simp only [if_pos h3] at hr ⊢
      simp only [jsmn_parse_string] at hr ⊢
      cases hs : strLoopF js len (len + 1) (parserR.pos + 1) with
      | inval =>
        rw [hs] at hr
        simp [JSMN_ERROR_INVAL] at hr
      | part =>
        rw [hs] at hr
        simp [JSMN_ERROR_PART] at hr
      | close q =>
        rw [hs] at hr
        dsimp only at hr ⊢
        simp only [jsmn_alloc_token] at hr ⊢
        by_cases hcap : cap ≤ parserR.toknext
        · rw [if_pos hcap] at hr
          simp [JSMN_ERROR_NOMEM] at hr
        · simp only [if_neg hcap] at hr ⊢
          simp only [if_neg (by decide : ¬ (0 : Int) < 0)] at hr ⊢
          refine ih _ _ _ _ ?_ hr
          rfl
    simp only [if_neg h3] at hr ⊢
    by_cases h4 : jsGet js parserR.pos = '\t' ∨ jsGet js parserR.pos = '\r' ∨
        jsGet js parserR.pos = '\n' ∨ jsGet js parserR.pos = ' '
    · simp only [if_pos h4] at hr ⊢
      refine ih _ _ _ _ ?_ hr
      rfl
    simp only [if_neg h4] at hr ⊢
    by_cases h5 : jsGet js parserR.pos = ':'
    · simp only [if_pos h5] at hr ⊢
      refine ih _ _ _ _ ?_ hr
      rfl
    simp only [if_neg h5] at hr ⊢
    by_cases h6 : jsGet js parserR.pos = ','
    · simp only [if_pos h6] at hr ⊢
      refine ih _ _ _ _ ?_ hr
      rfl
    simp only [if_neg h6] at hr ⊢
    simp only [jsmn_parse_primitive] at hr ⊢
    cases hpf : primLoopF js len (len + 1) parserR.pos with
    | none =>
      rw [hpf] at hr
      simp [JSMN_ERROR_INVAL] at hr
    | some f =>
      rw [hpf] at hr
      dsimp only at hr ⊢
      simp only [jsmn_alloc_token] at hr ⊢
      by_cases hcap : cap ≤ parserR.toknext
      · rw [if_pos hcap] at hr
        simp [JSMN_ERROR_NOMEM] at hr
      · simp only [if_neg hcap] at hr ⊢
        simp only [if_neg (by decide : ¬ (0 : Int) < 0)] at hr ⊢
        refine ih _ _ _ _ ?_ hr
        rfl

/-- C6 (amended): for every input on which the real parse (fresh state,
non-null pool) succeeds, the dry-run parse (NULL pool, fresh state)
returns the same token count. -/
theorem spec_C6_amended (js : List Char) (len cap : Nat) (r : Int)
    (p' : JsmnParser) (o' : Option (List Jsmntok))
    (hreal : jsmn_parse jsmn_init js len (some []) cap = (r, p', o'))
    (hr : 0 ≤ r) :
    (jsmn_parse jsmn_init js len none 0).1 = r := by
  rw [jsmn_parse] at hreal ⊢
  have h := parseLoop_dry js len cap (len + 1) jsmn_init [] (jsmn_init.toknext : Int)
    jsmn_init rfl (by rw [hreal]; exact hr)
  rw [h, hreal]

/-- C6 witness: on `[true]` the real parse succeeds with count 2 and the
dry run also returns 2. -/
theorem spec_C6_witness :
    (jsmn_parse jsmn_init ['[', 't', 'r', 'u', 'e', ']'] 6 none 0).1 = 2 :=
  spec_C6_amended ['[', 't', 'r', 'u', 'e', ']'] 6 4 2
    { pos := 6, toknext := 2, toksuper := -1 }
    (some [{ type := .JSMN_ARRAY, start := 0, end_ := 6, size := 1 },
      { type := .JSMN_PRIMITIVE, start := 1, end_ := 5, size := 0 }])
    (by decide) (by decide)

/-- Lockstep simulation of a real parse by a real parse with a smaller
pool: the two runs behave identically until the smaller pool is
exhausted, so when the run with the larger pool succeeds with a count
exceeding the smaller capacity, the smaller run fails with
`JSMN_ERROR_NOMEM` at the allocation that would overflow it.  The
invariant `count = toknext` holds because the count is incremented
exactly when a token is allocated. -/
lemma parseLoop_nomem (js : List Char) (len cap c : Nat) :
    ∀ (fuel : Nat) (parser : JsmnParser) (toks : List Jsmntok) (count : Int),
      count = (parser.toknext : Int) →
      parser.toknext ≤ c →
      0 ≤ (parseLoopF js len cap fuel parser (some toks) count).1 →
      (c : Int) < (parseLoopF js len cap fuel parser (some toks) count).1 →
      (parseLoopF js len c fuel parser (some toks) count).1 = JSMN_ERROR_NOMEM := by
  intro fuel
  induction fuel with
  | zero =>
    intro parser toks count _ _ hr _
    simp [parseLoopF, JSMN_ERROR_PART] at hr
  | succ n ih =>
    intro parser toks count hcount hle hr hcr
    simp only [parseLoopF] at hr hcr ⊢
    by_cases hc0 : parser.pos < len ∧ jsGet js parser.pos ≠ '\x00'
    case neg =>
      simp only [if_neg hc0] at hr hcr ⊢
      by_cases hf : (findOpen toks parser.toknext).isSome
      · rw [if_pos hf] at hr
        simp [JSMN_ERROR_PART] at hr
      · simp only [if_neg hf] at hr hcr ⊢
        exfalso
        omega
    simp only [if_pos hc0] at hr hcr ⊢
    by_cases h1 : jsGet js parser.pos = '{' ∨ jsGet js parser.pos = '['
    · simp only [if_pos h1] at hr hcr ⊢
      simp only [jsmn_alloc_token] at hr hcr ⊢
      by_cases hcap : cap ≤ parser.toknext
      · rw [if_pos hcap] at hr
        simp [JSMN_ERROR_NOMEM] at hr
      · simp only [if_neg hcap] at hr hcr
        by_cases hc2 : c ≤ parser.toknext
        · rw [if_pos hc2]
        · simp only [if_neg hc2]
          try dsimp only
          refine ih _ _ _ ?_ ?_ hr hcr
          · dsimp only
            omega
          · dsimp only
            omega
    simp only [if_neg h1] at hr hcr ⊢
    by_cases h2 : jsGet js parser.pos = '}' ∨ jsGet js parser.pos = ']'
    · simp only [if_pos h2] at hr hcr ⊢
      cases hfo : findOpen toks parser.toknext with
      | none =>
        rw [hfo] at hr
        simp [JSMN_ERROR_INVAL] at hr
      | some i =>
        rw [hfo] at hr hcr
        try dsimp only at hr hcr ⊢
        by_cases h3 : (getTok toks i).type ≠
            (if jsGet js parser.pos = '}' then Jsmntype.JSMN_OBJECT else Jsmntype.JSMN_ARRAY)
        · rw [if_pos h3] at hr
          simp [JSMN_ERROR_INVAL] at hr
        · simp only [if_neg h3] at hr hcr ⊢
          exact ih _ _ _ hcount hle hr hcr
    simp only [if_neg h2] at hr hcr ⊢
    by_cases h3 : jsGet js parser.pos = '"'
    · simp only [if_pos h3] at hr hcr ⊢
      simp only [jsmn_parse_string] at hr hcr ⊢
      cases hs : strLoopF js len (len + 1) (parser.pos + 1) with
      | inval =>
        rw [hs] at hr
        simp [JSMN_ERROR_INVAL] at hr
      | part =>
        rw [hs] at hr
        simp [JSMN_ERROR_PART] at hr
      | close q =>
        rw [hs] at hr hcr
        try dsimp only at hr hcr ⊢
        simp only [jsmn_alloc_token] at hr hcr ⊢
        by_cases hcap : cap ≤ parser.toknext
        · rw [if_pos hcap] at hr
          simp [JSMN_ERROR_NOMEM] at hr
        · simp only [if_neg hcap] at hr hcr
          try dsimp only at hr hcr
          simp only [if_neg (by decide : ¬ (0 : Int) < 0)] at hr hcr
          try dsimp only at hr hcr
          by_cases hc2 : c ≤ parser.toknext
          · rw [if_pos hc2]
            try dsimp only
            rw [if_pos (by decide : JSMN_ERROR_NOMEM < (0 : Int))]
          · simp only [if_neg hc2]
            try dsimp only
            simp only [if_neg (by decide : ¬ (0 : Int) < 0)]
            try dsimp only
            refine ih _ _ _ ?_ ?_ hr hcr
            · dsimp only
              omega
            · dsimp only
              omega
    simp only [if_neg h3] at hr hcr ⊢
    by_cases h4 : jsGet js parser.pos = '\t' ∨ jsGet js parser.pos = '\r' ∨
        jsGet js parser.pos = '\n' ∨ jsGet js parser.pos = ' '
    · simp only [if_pos h4] at hr hcr ⊢
      exact ih _ _ _ hcount hle hr hcr
    simp only [if_neg h4] at hr hcr ⊢
    by_cases h5 : jsGet js parser.pos = ':'
    · simp only [if_pos h5] at hr hcr ⊢
      exact ih _ _ _ hcount hle hr hcr
    simp only [if_neg h5] at hr hcr ⊢
    by_cases h6 : jsGet js parser.pos = ','
    · simp only [if_pos h6] at hr hcr ⊢
      exact ih _ _ _ hcount hle hr hcr
    simp only [if_neg h6] at hr hcr ⊢
    simp only [jsmn_parse_primitive] at hr hcr ⊢
    cases hpf : primLoopF js len (len + 1) parser.pos with
    | none =>
      rw [hpf] at hr
      simp [JSMN_ERROR_INVAL] at hr
    | some f =>
      rw [hpf] at hr hcr
      try dsimp only at hr hcr ⊢
      simp only [jsmn_alloc_token] at hr hcr ⊢
      by_cases hcap : cap ≤ parser.toknext
      · rw [if_pos hcap] at hr
        simp [JSMN_ERROR_NOMEM] at hr
      · simp only [if_neg hcap] at hr hcr
        try dsimp only at hr hcr
        simp only [if_neg (by decide : ¬ (0 : Int) < 0)] at hr hcr
        try dsimp only at hr hcr
        by_cases hc2 : c ≤ parser.toknext
        · rw [if_pos hc2]
          try dsimp only
          rw [if_pos (by decide : JSMN_ERROR_NOMEM < (0 : Int))]
        · simp only [if_neg hc2]
          try dsimp only
          simp only [if_neg (by decide : ¬ (0 : Int) < 0)]
          try dsimp only
          refine ih _ _ _ ?_ ?_ hr hcr
          · dsimp only
            omega
          · dsimp only
            omega

lemma updTok_append_length2 (toks : List Jsmntok) (d : Jsmntok) {n : Nat}
    (hn : toks.length = n) (g : Jsmntok → Jsmntok) :
    updTok (toks ++ [d]) n g = toks ++ [g d] := by
  subst hn
  exact updTok_append_length toks d g

lemma updTok_append_chain (toks : List Jsmntok) (d : Jsmntok) {s n : Nat}
    (hn : toks.length = n) (hs : s < toks.length) (f g : Jsmntok → Jsmntok) :
    updTok (updTok (toks ++ [d]) s f) n g = updTok toks s f ++ [g d] := by
  subst hn
  rw [updTok_append_left toks d f hs,
    show toks.length = (updTok toks s f).length from (updTok_length toks s f).symm,
    updTok_append_length]

lemma start_preserved_updTok {toks : List Jsmntok} (hstart : ∀ t ∈ toks, t.start ≠ -1)
    {s : Nat} {f : Jsmntok → Jsmntok} (hf : ∀ t, (f t).start = t.start) :
    ∀ t ∈ updTok toks s f, t.start ≠ -1 := by
  intro t ht
  rcases mem_updTok ht with h | ⟨hs, rfl⟩
  · exact hstart t h
  · rw [hf]
    exact hstart _ (getTok_mem hs)

lemma start_append {l1 : List Jsmntok} {v : Jsmntok} (h1 : ∀ t ∈ l1, t.start ≠ -1)
    (hv : v.start ≠ -1) : ∀ t ∈ l1 ++ [v], t.start ≠ -1 := by
  intro t ht
  rcases List.mem_append.mp ht with h | h
  · exact h1 t h
  · rw [List.mem_singleton.mp h]
    exact hv

lemma end_closed_of_findOpen_none {toks : List Jsmntok} {n : Nat}
    (hlen : toks.length = n) (hfo : findOpen toks n = none)
    (hstart : ∀ t ∈ toks, t.start ≠ -1) : ∀ t ∈ toks, t.end_ ≠ -1 := by
  intro t ht
  obtain ⟨j, hj, rfl⟩ := List.mem_iff_getElem.mp ht
  have hje := findOpen_none hfo j (by omega)
  rw [show toks[j] = getTok toks j from (List.getD_eq_getElem toks _ hj).symm] at ht ⊢
  intro hend
  exact hje ⟨hstart _ ht, hend⟩

/-- Invariant preservation over the main parse loop (real mode): every
allocated token's `start` is set in the very step that allocates it, so
all allocated tokens always have `start ≠ -1`; combined with the
end-of-parse check (which fails with `JSMN_ERROR_PART` when a token has
`start ≠ -1` and `end == -1`), a successful parse leaves every token
with `end ≠ -1`. -/
lemma parseLoop_closed (js : List Char) (len cap : Nat) :
    ∀ (fuel : Nat) (parser : JsmnParser) (toks : List Jsmntok) (count : Int),
      toks.length = parser.toknext →
      (∀ t ∈ toks, t.start ≠ -1) →
      -1 ≤ parser.toksuper →
      parser.toksuper < (parser.toknext : Int) →
      0 ≤ (parseLoopF js len cap fuel parser (some toks) count).1 →
      ∃ toks', (parseLoopF js len cap fuel parser (some toks) count).2.2 = some toks' ∧
        ∀ t ∈ toks', t.end_ ≠ -1 := by
  intro fuel
  induction fuel with
  | zero =>
    intro parser toks count _ _ _ _ hr
    simp [parseLoopF, JSMN_ERROR_PART] at hr
  | succ n ih =>
    intro parser toks count hlen hstart hsup1 hsup2 hr
    simp only [parseLoopF] at hr ⊢
    by_cases hc0 : parser.pos < len ∧ jsGet js parser.pos ≠ '\x00'
    case neg =>
      simp only [if_neg hc0] at hr ⊢
      by_cases hf : (findOpen toks parser.toknext).isSome
      · rw [if_pos hf] at hr
        simp [JSMN_ERROR_PART] at hr
      · simp only [if_neg hf] at hr ⊢
        refine ⟨toks, rfl, ?_⟩
        exact end_closed_of_findOpen_none hlen (Option.not_isSome_iff_eq_none.mp hf) hstart
    simp only [if_pos hc0] at hr ⊢
    by_cases h1 : jsGet js parser.pos = '{' ∨ jsGet js parser.pos = '['
    · simp only [if_pos h1] at hr ⊢
      simp only [jsmn_alloc_token] at hr ⊢
      by_cases hcap : cap ≤ parser.toknext
      · rw [if_pos hcap] at hr
        simp [JSMN_ERROR_NOMEM] at hr
      · simp only [if_neg hcap] at hr ⊢
        try dsimp only at hr ⊢
        by_cases hsup : parser.toksuper ≠ -1
        · simp only [if_pos hsup] at hr ⊢
          have hslt : parser.toksuper.toNat < toks.length := by omega
          rw [updTok_append_chain toks _ hlen hslt] at hr ⊢
          refine ih _ _ _ ?_ ?_ ?_ ?_ hr
          · simp [updTok_length, hlen]
          · refine start_append (start_preserved_updTok hstart ?_) ?_
            · intro t
              rfl
            · dsimp only
              omega
          · dsimp only
            omega
          · dsimp only
            push_cast
            omega
        · simp only [if_neg hsup] at hr ⊢
          rw [updTok_append_length2 toks _ hlen] at hr ⊢
          refine ih _ _ _ ?_ ?_ ?_ ?_ hr
          · simp [hlen]
          · refine start_append hstart ?_
            dsimp only
            omega
          · dsimp only
            omega
          · dsimp only
            push_cast
            omega
    simp only [if_neg h1] at hr ⊢
    by_cases h2 : jsGet js parser.pos = '}' ∨ jsGet js parser.pos = ']'
    · simp only [if_pos h2] at hr ⊢
      cases hfo : findOpen toks parser.toknext with
      | none =>
        rw [hfo] at hr
        simp [JSMN_ERROR_INVAL] at hr
      | some i =>
        rw [hfo] at hr
        try dsimp only at hr ⊢
        by_cases h3 : (getTok toks i).type ≠
            (if jsGet js parser.pos = '}' then Jsmntype.JSMN_OBJECT else Jsmntype.JSMN_ARRAY)
        · rw [if_pos h3] at hr
          simp [JSMN_ERROR_INVAL] at hr
        · simp only [if_neg h3] at hr ⊢
          have hilt : i < parser.toknext := findOpen_lt hfo
          refine ih _ _ _ ?_ ?_ ?_ ?_ hr
          · simp [updTok_length, hlen]
          · refine start_preserved_updTok hstart ?_
            intro t
            rfl
          · dsimp only
            cases hfo2 : findOpen (updTok toks i fun t =>
                { type := t.type, start := t.start, end_ := (parser.pos : Int) + 1,
                  size := t.size }) (i + 1) with
            | none =>
              try dsimp only
              omega
            | some j =>
              try dsimp only
              omega
          · dsimp only
            cases hfo2 : findOpen (updTok toks i fun t =>
                { type := t.type, start := t.start, end_ := (parser.pos : Int) + 1,
                  size := t.size }) (i + 1) with
            | none =>
              try dsimp only
              omega
            | some j =>
              try dsimp only
              have := findOpen_lt hfo2
              omega
    simp only [if_neg h2] at hr ⊢
    by_cases h3 : jsGet js parser.pos = '"'
    · simp only [if_pos h3] at hr ⊢
      simp only [jsmn_parse_string] at hr ⊢
      cases hs : strLoopF js len (len + 1) (parser.pos + 1) with
      | inval =>
        rw [hs] at hr
        simp [JSMN_ERROR_INVAL] at hr
      | part =>
        rw [hs] at hr
        simp [JSMN_ERROR_PART] at hr
      | close q =>
        rw [hs] at hr
        try dsimp only at hr ⊢
        simp only [jsmn_alloc_token] at hr ⊢
        by_cases hcap : cap ≤ parser.toknext
        · rw [if_pos hcap] at hr
          simp [JSMN_ERROR_NOMEM] at hr
        · simp only [if_neg hcap] at hr ⊢
          try dsimp only at hr ⊢
          simp only [if_neg (by decide : ¬ (0 : Int) < 0)] at hr ⊢
          try dsimp only at hr ⊢
          rw [updTok_append_length2 toks _ hlen] at hr ⊢
          by_cases hsup : parser.toksuper ≠ -1
          · simp only [if_pos hsup] at hr ⊢
            refine ih _ _ _ ?_ ?_ ?_ ?_ hr
            · simp [updTok_length, hlen]
            · refine start_preserved_updTok (start_append hstart ?_) ?_
              · simp [jsmn_fill_token]
                omega
              · intro t
                rfl
            · dsimp only
              omega
            · dsimp only
              push_cast
              omega
          · simp only [if_neg hsup] at hr ⊢
            refine ih _ _ _ ?_ ?_ ?_ ?_ hr
            · simp [hlen]
            · refine start_append hstart ?_
              simp [jsmn_fill_token]
              omega
            · dsimp only
              omega
            · dsimp only
              push_cast
              omega
    simp only [if_neg h3] at hr ⊢
    by_cases h4 : jsGet js parser.pos = '\t' ∨ jsGet js parser.pos = '\r' ∨
        jsGet js parser.pos = '\n' ∨ jsGet js parser.pos = ' '
    · simp only [if_pos h4] at hr ⊢
      exact ih _ _ _ hlen hstart hsup1 hsup2 hr
    simp only [if_neg h4] at hr ⊢
    by_cases h5 : jsGet js parser.pos = ':'
    · simp only [if_pos h5] at hr ⊢
      refine ih _ _ _ hlen hstart ?_ ?_ hr
      · dsimp only
        omega
      · dsimp only
        omega
    simp only [if_neg h5] at hr ⊢
    by_cases h6 : jsGet js parser.pos = ','
    · simp only [if_pos h6] at hr ⊢
      by_cases h7 : parser.toksuper ≠ -1 ∧
          (getTok toks parser.toksuper.toNat).type ≠ .JSMN_ARRAY ∧
          (getTok toks parser.toksuper.toNat).type ≠ .JSMN_OBJECT
      · simp only [if_pos h7] at hr ⊢
        cases hfoc : findOpenContainer toks parser.toknext with
        | none =>
          rw [hfoc] at hr
          exact ih _ _ _ hlen hstart hsup1 hsup2 hr
        | some i =>
          rw [hfoc] at hr
          have := findOpenContainer_lt hfoc
          refine ih _ _ _ hlen hstart ?_ ?_ hr
          · dsimp only
            omega
          · dsimp only
            omega
      · simp only [if_neg h7] at hr ⊢
        exact ih _ _ _ hlen hstart hsup1 hsup2 hr
    simp only [if_neg h6] at hr ⊢
    simp only [jsmn_parse_primitive] at hr ⊢
    cases hpf : primLoopF js len (len + 1) parser.pos with
    | none =>
      rw [hpf] at hr
      simp [JSMN_ERROR_INVAL] at hr
    | some f =>
      rw [hpf] at hr
      try dsimp only at hr ⊢
      simp only [jsmn_alloc_token] at hr ⊢
      by_cases hcap : cap ≤ parser.toknext
      · rw [if_pos hcap] at hr
        simp [JSMN_ERROR_NOMEM] at hr
      · simp only [if_neg hcap] at hr ⊢
        try dsimp only at hr ⊢
        simp only [if_neg (by decide : ¬ (0 : Int) < 0)] at hr ⊢
        try dsimp only at hr ⊢
        rw [updTok_append_length2 toks _ hlen] at hr ⊢
        by_cases hsup : parser.toksuper ≠ -1
        · simp only [if_pos hsup] at hr ⊢
          refine ih _ _ _ ?_ ?_ ?_ ?_ hr
          · simp [updTok_length, hlen]
          · refine start_preserved_updTok (start_append hstart ?_) ?_
            · simp [jsmn_fill_token]
              try omega
            · intro t
              rfl
          · dsimp only
            omega
          · dsimp only
            push_cast
            omega
        · simp only [if_neg hsup] at hr ⊢
          refine ih _ _ _ ?_ ?_ ?_ ?_ hr
          · simp [hlen]
          · refine start_append hstart ?_
            simp [jsmn_fill_token]
            try omega
          · dsimp only
            omega
          · dsimp only
            push_cast
            omega

/-- C5: for every input parsed from a fresh state with a non-null pool,
a successful `jsmn_parse` leaves every allocated token with `end ≠ -1`;
and for the unterminated container input `{` alone, `jsmn_parse` returns
`JSMN_ERROR_PART`. -/
theorem spec_C5 :
    (∀ (js : List Char) (len cap : Nat) (r : Int) (p' : JsmnParser)
        (toks' : List Jsmntok),
      jsmn_parse jsmn_init js len (some []) cap = (r, p', some toks') →
      0 ≤ r → ∀ t ∈ toks', t.end_ ≠ -1) ∧
    (jsmn_parse jsmn_init ['{'] 1 (some []) 1).1 = JSMN_ERROR_PART := by
  constructor
  · intro js len cap r p' toks' heq hr
    rw [jsmn_parse] at heq
    have h := parseLoop_closed js len cap (len + 1) jsmn_init []
      (jsmn_init.toknext : Int) rfl (by intro t ht; cases ht) (by decide) (by decide)
      (by rw [heq]; exact hr)
    obtain ⟨toks2, h1, h2⟩ := h
    rw [heq] at h1
    have h3 : toks' = toks2 := by simpa using h1
    subst h3
    exact h2
  · decide

/-- C5 witness: parsing the single primitive `7` succeeds and the one
allocated token has `end = 1 ≠ -1`. -/
theorem spec_C5_witness :
    ∀ t ∈ [({ type := .JSMN_PRIMITIVE, start := 0, end_ := 1, size := 0 } : Jsmntok)],
      t.end_ ≠ -1 :=
  spec_C5.1 ['7'] 1 1 1 { pos := 1, toknext := 1, toksuper := -1 }
    [{ type := .JSMN_PRIMITIVE, start := 0, end_ := 1, size := 0 }]
    (by decide) (by decide)

/-- C7: if an input requires N tokens (a real parse from a fresh state
with some pool capacity succeeds returning N), then for every capacity
strictly below N the parse returns `JSMN_ERROR_NOMEM` — never a
successful count over a silently truncated token array. -/
theorem spec_C7 (js : List Char) (len cap c : Nat) (r : Int) (p' : JsmnParser)
    (o' : Option (List Jsmntok))
    (hreal : jsmn_parse jsmn_init js len (some []) cap = (r, p', o'))
    (hr : 0 ≤ r) (hc : (c : Int) < r) :
    (jsmn_parse jsmn_init js len (some []) c).1 = JSMN_ERROR_NOMEM := by
  rw [jsmn_parse] at hreal ⊢
  exact parseLoop_nomem js len cap c (len + 1) jsmn_init [] (jsmn_init.toknext : Int)
    rfl (Nat.zero_le c) (by rw [hreal]; exact hr) (by rw [hreal]; exact hc)

/-- C7 witness: `[]` requires 1 token (a parse with capacity 2 succeeds
returning 1), and parsing it with capacity 0 yields `JSMN_ERROR_NOMEM`. -/
theorem spec_C7_witness :
    (jsmn_parse jsmn_init ['[', ']'] 2 (some []) 0).1 = JSMN_ERROR_NOMEM :=
  spec_C7 ['[', ']'] 2 2 0 1 { pos := 2, toknext := 1, toksuper := -1 }
    (some [{ type := .JSMN_ARRAY, start := 0, end_ := 2, size := 0 }])
    (by decide) (by decide) (by decide)

/-- C10 witness: the top-level array `["a"]` (whose parse succeeds with an
Array root and which contains a String token spanning `a`) and the empty
input both make `get_json_value` return NULL for the key `a`. -/
theorem spec_C10_witness :
    get_json_value true true ['a'] (some c10js) 8 = none ∧
    get_json_value true true ['a'] (some []) 8 = none :=
  ⟨spec_C10 ['a'] c10js 8 true (by decide) (by decide),
    spec_C10 ['a'] [] 8 true (by decide) (by decide)⟩

/-! ### Infrastructure for the functional-correctness proof -/

lemma SContent_le {js : List Char} : ∀ {a b : Nat}, SContent js a b → a ≤ b := by
  intro a b h
  induction h with
  | nil a => exact le_rfl
  | plain a b _ _ _ _ ih => omega
  | esc a b _ _ _ ih => omega
  | uesc a b _ _ _ _ ih => omega

lemma hexByte_ne_nul {c : Char} (h : hexByte c) : c ≠ '\x00' := by
  intro he
  subst he
  rcases h with ⟨h1, _⟩ | ⟨h1, _⟩ | ⟨h1, _⟩ <;> exact absurd h1 (by decide)

lemma primByte_ne_nul {c : Char} (h : primByte c) : c ≠ '\x00' := by
  intro he
  subst he
  exact absurd h.1 (by decide)

lemma delimByte_ne_nul {c : Char} (h : delimByte c) : c ≠ '\x00' := by
  rcases h with h | h | h | h | h | h | h | h <;> subst h <;> decide

lemma primByte_not_delim {c : Char} (h : primByte c) :
    ¬(c = ':' ∨ c = '\t' ∨ c = '\r' ∨ c = '\n' ∨ c = ' ' ∨ c = ',' ∨
      c = ']' ∨ c = '}') := by
  obtain ⟨h1, h2, h3, h4, h5, h6, h7, h8, h9⟩ := h
  intro hd
  rcases hd with h | h | h | h | h | h | h | h <;> subst h <;> simp_all <;> omega

lemma hexLoop_ge {js : List Char} {len : Nat} :
    ∀ {j p p' : Nat}, hexLoop js len j p = some p' → p ≤ p' := by
  intro j
  induction j with
  | zero =>
    intro p p' h
    rw [hexLoop] at h
    cases h
    exact le_rfl
  | succ j ih =>
    intro p p' h
    rw [hexLoop] at h
    by_cases hc : p < len ∧ jsGet js p ≠ '\x00'
    · rw [if_pos hc] at h
      by_cases hx : (48 ≤ (jsGet js p).toNat ∧ (jsGet js p).toNat ≤ 57) ∨
          (65 ≤ (jsGet js p).toNat ∧ (jsGet js p).toNat ≤ 70) ∨
          (97 ≤ (jsGet js p).toNat ∧ (jsGet js p).toNat ≤ 102)
      · rw [if_pos hx] at h
        have := ih h
        omega
      · rw [if_neg hx] at h
        cases h
    · rw [if_neg hc] at h
      cases h
      exact le_rfl

lemma primLoopF_ge {js : List Char} {len : Nat} :
    ∀ {fuel p f : Nat}, primLoopF js len fuel p = some f → p ≤ f := by
  intro fuel
  induction fuel with
  | zero =>
    intro p f h
    rw [primLoopF] at h
    cases h
    exact le_rfl
  | succ k ih =>
    intro p f h
    rw [primLoopF] at h
    by_cases hc : p < len ∧ jsGet js p ≠ '\x00'
    · rw [if_pos hc] at h
      by_cases hd : jsGet js p = ':' ∨ jsGet js p = '\t' ∨ jsGet js p = '\r' ∨
          jsGet js p = '\n' ∨ jsGet js p = ' ' ∨ jsGet js p = ',' ∨
          jsGet js p = ']' ∨ jsGet js p = '}'
      · rw [if_pos hd] at h
        cases h
        exact le_rfl
      · rw [if_neg hd] at h
        by_cases hx : (jsGet js p).toNat < 32 ∨ 127 ≤ (jsGet js p).toNat
        · rw [if_pos hx] at h
          cases h
        · rw [if_neg hx] at h
          have := ih h
          omega
    · rw [if_neg hc] at h
      cases h
      exact le_rfl

lemma primLoopF_first {js : List Char} {len pos f : Nat}
    (hlt : pos < len) (hnz : jsGet js pos ≠ '\x00')
    (hnd : ¬(jsGet js pos = ':' ∨ jsGet js pos = '\t' ∨ jsGet js pos = '\r' ∨
      jsGet js pos = '\n' ∨ jsGet js pos = ' ' ∨ jsGet js pos = ',' ∨
      jsGet js pos = ']' ∨ jsGet js pos = '}'))
    (h : primLoopF js len (len + 1) pos = some f) : pos + 1 ≤ f := by
  rw [primLoopF, if_pos ⟨hlt, hnz⟩, if_neg hnd] at h
  by_cases hx : (jsGet js pos).toNat < 32 ∨ 127 ≤ (jsGet js pos).toNat
  · rw [if_pos hx] at h
    cases h
  · rw [if_neg hx] at h
    exact primLoopF_ge h

lemma strLoopF_close_ge {js : List Char} {len : Nat} :
    ∀ {fuel p q : Nat}, strLoopF js len fuel p = .close q → p ≤ q := by
  intro fuel
  induction fuel with
  | zero =>
    intro p q h
    rw [strLoopF] at h
    cases h
  | succ k ih =>
    intro p q h
    rw [strLoopF] at h
    by_cases hc : p < len ∧ jsGet js p ≠ '\x00'
    · rw [if_pos hc] at h
      by_cases hq : jsGet js p = '"'
      · rw [if_pos hq] at h
        cases h
        exact le_rfl
      · rw [if_neg hq] at h
        by_cases hb : jsGet js p = '\\' ∧ p + 1 < len
        · rw [if_pos hb] at h
          by_cases he : jsGet js (p + 1) = '"' ∨ jsGet js (p + 1) = '/' ∨
              jsGet js (p + 1) = '\\' ∨ jsGet js (p + 1) = 'b' ∨
              jsGet js (p + 1) = 'f' ∨ jsGet js (p + 1) = 'r' ∨
              jsGet js (p + 1) = 'n' ∨ jsGet js (p + 1) = 't'
          · rw [if_pos he] at h
            have := ih h
            omega
          · rw [if_neg he] at h
            by_cases hu : jsGet js (p + 1) = 'u'
            · rw [if_pos hu] at h
              cases hh : hexLoop js len 4 (p + 2) with
              | none =>
                rw [hh] at h
                cases h
              | some p2 =>
                rw [hh] at h
                have h1 := hexLoop_ge hh
                have := ih h
                omega
            · rw [if_neg hu] at h
              cases h
        · rw [if_neg hb] at h
          have := ih h
          omega
    · rw [if_neg hc] at h
      cases h

lemma getTok_append_lt {l1 l2 : List Jsmntok} {i : Nat} (h : i < l1.length) :
    getTok (l1 ++ l2) i = getTok l1 i := by
  rw [getTok, getTok, List.getD_eq_getElem _ _ h,
    List.getD_eq_getElem _ _ (by simp; omega)]
  exact List.getElem_append_left h

lemma set_append_lt (l1 l2 : List Jsmntok) (v : Jsmntok) :
    ∀ i, i < l1.length → (l1 ++ l2).set i v = l1.set i v ++ l2 := by
  induction l1 with
  | nil => intro i h; cases h
  | cons a l ih =>
    intro i h
    cases i with
    | zero => rfl
    | succ i => simpa using ih i (by simpa using h)

lemma updTok_append_mid (L1 L2 : List Jsmntok) (ct : Jsmntok) (f : Jsmntok → Jsmntok) :
    updTok (L1 ++ ct :: L2) L1.length f = L1 ++ f ct :: L2 := by
  have h1 : L1 ++ ct :: L2 = (L1 ++ [ct]) ++ L2 := by simp
  rw [h1, updTok, getTok_append_lt (by simp), getTok_append_length,
    set_append_lt _ _ _ _ (by simp), set_append_length]
  simp

lemma findOpen_front (L1 L2 : List Jsmntok) :
    ∀ n, n ≤ L1.length → findOpen (L1 ++ L2) n = findOpen L1 n := by
  intro n
  induction n with
  | zero => intro _; rfl
  | succ n ih =>
    intro h
    rw [findOpen, findOpen, getTok_append_lt (by omega), ih (by omega)]

lemma findOpen_skip_closed (L L2 : List Jsmntok)
    (hcl : ∀ t ∈ L2, ¬(t.start ≠ -1 ∧ t.end_ = -1)) :
    ∀ n, L.length ≤ n → n ≤ L.length + L2.length →
      findOpen (L ++ L2) n = findOpen (L ++ L2) L.length := by
  intro n
  induction n with
  | zero =>
    intro h1 _
    have h0 : L.length = 0 := by omega
    rw [h0]
  | succ n ih =>
    intro h1 h2
    rcases Nat.eq_or_lt_of_le h1 with heq | hlt
    · rw [heq]
    · have hl : L.length ≤ n := by omega
      rw [findOpen]
      have hn : n - L.length < L2.length := by omega
      have hget : getTok (L ++ L2) n = L2[n - L.length] := by
        rw [getTok, List.getD_eq_getElem _ _ (by simp; omega)]
        exact List.getElem_append_right hl
      rw [hget, if_neg (hcl _ (List.getElem_mem hn))]
      exact ih hl (by omega)

lemma findOpen_mid (L1 L2 : List Jsmntok) (ct : Jsmntok)
    (hcl : ∀ t ∈ L2, ¬(t.start ≠ -1 ∧ t.end_ = -1))
    (hopen : ct.start ≠ -1 ∧ ct.end_ = -1) :
    findOpen (L1 ++ ct :: L2) (L1.length + 1 + L2.length) = some L1.length := by
  have h1 : L1 ++ ct :: L2 = (L1 ++ [ct]) ++ L2 := by simp
  rw [h1]
  rw [show L1.length + 1 + L2.length = (L1 ++ [ct]).length + L2.length from by simp]
  rw [findOpen_skip_closed _ _ hcl _ (Nat.le_add_right _ _) le_rfl]
  rw [show (L1 ++ [ct]).length = L1.length + 1 from by simp]
  rw [findOpen_front _ _ _ (by simp), findOpen, getTok_append_length, if_pos hopen]

lemma findOpenContainer_front (L1 L2 : List Jsmntok) :
    ∀ n, n ≤ L1.length → findOpenContainer (L1 ++ L2) n = findOpenContainer L1 n := by
  intro n
  induction n with
  | zero => intro _; rfl
  | succ n ih =>
    intro h
    rw [findOpenContainer, findOpenContainer, getTok_append_lt (by omega), ih (by omega)]

lemma findOpenContainer_skip_closed (L L2 : List Jsmntok)
    (hcl : ∀ t ∈ L2, ¬(t.start ≠ -1 ∧ t.end_ = -1)) :
    ∀ n, L.length ≤ n → n ≤ L.length + L2.length →
      findOpenContainer (L ++ L2) n = findOpenContainer (L ++ L2) L.length := by
  intro n
  induction n with
  | zero =>
    intro h1 _
    have h0 : L.length = 0 := by omega
    rw [h0]
  | succ n ih =>
    intro h1 h2
    rcases Nat.eq_or_lt_of_le h1 with heq | hlt
    · rw [heq]
    · have hl : L.length ≤ n := by omega
      rw [findOpenContainer]
      have hn : n - L.length < L2.length := by omega
      have hget : getTok (L ++ L2) n = L2[n - L.length] := by
        rw [getTok, List.getD_eq_getElem _ _ (by simp; omega)]
        exact List.getElem_append_right hl
      rw [hget, if_neg (fun hx => hcl _ (List.getElem_mem hn) hx.2)]
      exact ih hl (by omega)

lemma findOpenContainer_mid (L1 L2 : List Jsmntok) (ct : Jsmntok)
    (hcl : ∀ t ∈ L2, ¬(t.start ≠ -1 ∧ t.end_ = -1))
    (htype : ct.type = .JSMN_ARRAY ∨ ct.type = .JSMN_OBJECT)
    (hopen : ct.start ≠ -1 ∧ ct.end_ = -1) :
    findOpenContainer (L1 ++ ct :: L2) (L1.length + 1 + L2.length) = some L1.length := by
  have h1 : L1 ++ ct :: L2 = (L1 ++ [ct]) ++ L2 := by simp
  rw [h1]
  rw [show L1.length + 1 + L2.length = (L1 ++ [ct]).length + L2.length from by simp]
  rw [findOpenContainer_skip_closed _ _ hcl _ (Nat.le_add_right _ _) le_rfl]
  rw [show (L1 ++ [ct]).length = L1.length + 1 from by simp]
  rw [findOpenContainer_front _ _ _ (by simp), findOpenContainer, getTok_append_length,
    if_pos ⟨htype, hopen⟩]

lemma J_tokens_closed {js : List Char} :
    ∀ {f : JForm} {a b n : Nat} {tv : List Jsmntok}, J js f a b n tv →
      ∀ t ∈ tv, t.start ≠ -1 ∧ t.end_ ≠ -1 := by
  intro f a b n tv h
  induction h with
  | prim a b _ _ =>
    intro t ht
    rw [List.mem_singleton.mp ht]
    constructor <;> simp <;> omega
  | str a b _ _ _ =>
    intro t ht
    rw [List.mem_singleton.mp ht]
    constructor <;> simp <;> omega
  | arr a b n tv _ _ _ ih =>
    intro t ht
    rcases List.mem_cons.mp ht with rfl | ht2
    · constructor <;> simp <;> omega
    · exact ih t ht2
  | obj a b n tv _ _ _ ih =>
    intro t ht
    rcases List.mem_cons.mp ht with rfl | ht2
    · constructor <;> simp <;> omega
    · exact ih t ht2
  | enil a b _ =>
    intro t ht
    cases ht
  | eone a c d b tv _ _ _ ih => exact ih
  | econs a c d e b n tv tvs _ _ _ _ _ _ ih1 ih2 =>
    intro t ht
    rcases List.mem_append.mp ht with h1 | h1
    · exact ih1 t h1
    · exact ih2 t h1
  | mnil a b _ =>
    intro t ht
    cases ht
  | mone a c d e f g b tv _ _ _ _ _ _ _ _ _ ih =>
    intro t ht
    rcases List.mem_cons.mp ht with rfl | ht2
    · constructor <;> simp <;> omega
    · exact ih t ht2
  | mcons a c d e f g h2 b n tv tvs _ _ _ _ _ _ _ _ _ _ _ _ ih1 ih2 =>
    intro t ht
    rcases List.mem_cons.mp ht with rfl | ht2
    · constructor <;> simp <;> omega
    · rcases List.mem_append.mp ht2 with h1 | h1
      · exact ih1 t h1
      · exact ih2 t h1

lemma parseLoopF_fuel (js : List Char) (len cap : Nat) :
    ∀ (f1 : Nat) (parser : JsmnParser) (tokens : Option (List Jsmntok)) (count : Int)
      (f2 : Nat), len - parser.pos < f1 → len - parser.pos < f2 →
      parseLoopF js len cap f1 parser tokens count =
        parseLoopF js len cap f2 parser tokens count := by
  intro f1
  induction f1 with
  | zero =>
    intro parser _ _ f2 h1 _
    omega
  | succ k ih =>
    intro parser tokens count f2 h1 h2
    cases f2 with
    | zero => omega
    | succ j =>
      simp only [parseLoopF]
      by_cases hc0 : parser.pos < len ∧ jsGet js parser.pos ≠ '\x00'
      case neg => simp only [if_neg hc0]
      simp only [if_pos hc0]
      by_cases h1c : jsGet js parser.pos = '{' ∨ jsGet js parser.pos = '['
      · simp only [if_pos h1c]
        cases tokens with
        | none => exact ih _ none _ j (by first | (dsimp only; omega) | omega) (by first | (dsimp only; omega) | omega)
        | some toks =>
          try dsimp only
          simp only [jsmn_alloc_token]
          by_cases hcap : cap ≤ parser.toknext
          · simp only [if_pos hcap]
          · simp only [if_neg hcap]
            try dsimp only
            exact ih _ _ _ j (by first | (dsimp only; omega) | omega) (by first | (dsimp only; omega) | omega)
      simp only [if_neg h1c]
      by_cases h2c : jsGet js parser.pos = '}' ∨ jsGet js parser.pos = ']'
      · simp only [if_pos h2c]
        cases tokens with
        | none => exact ih _ none _ j (by first | (dsimp only; omega) | omega) (by first | (dsimp only; omega) | omega)
        | some toks =>
          try dsimp only
          cases hfo : findOpen toks parser.toknext with
          | none => rfl
          | some i =>
            try dsimp only
            by_cases h3c : (getTok toks i).type ≠
                (if jsGet js parser.pos = '}' then Jsmntype.JSMN_OBJECT
                  else Jsmntype.JSMN_ARRAY)
            · simp only [if_pos h3c]
            · simp only [if_neg h3c]
              exact ih _ _ _ j (by first | (dsimp only; omega) | omega) (by first | (dsimp only; omega) | omega)
      simp only [if_neg h2c]
      by_cases h3c : jsGet js parser.pos = '"'
      · simp only [if_pos h3c]
        simp only [jsmn_parse_string]
        cases hs : strLoopF js len (len + 1) (parser.pos + 1) with
        | inval => rfl
        | part => rfl
        | close q =>
          have hq : parser.pos + 1 ≤ q := strLoopF_close_ge hs
          cases tokens with
          | none =>
            try dsimp only
            simp only [if_neg (by decide : ¬ (0 : Int) < 0)]
            try dsimp only
            exact ih _ none _ j (by first | (dsimp only; omega) | omega) (by first | (dsimp only; omega) | omega)
          | some toks =>
            try dsimp only
            simp only [jsmn_alloc_token]
            by_cases hcap : cap ≤ parser.toknext
            · simp only [if_pos hcap]
              simp only [if_pos (by decide : JSMN_ERROR_NOMEM < (0 : Int))]
            · simp only [if_neg hcap]
              try dsimp only
              simp only [if_neg (by decide : ¬ (0 : Int) < 0)]
              try dsimp only
              exact ih _ _ _ j (by first | (dsimp only; omega) | omega) (by first | (dsimp only; omega) | omega)
      simp only [if_neg h3c]
      by_cases h4c : jsGet js parser.pos = '\t' ∨ jsGet js parser.pos = '\r' ∨
          jsGet js parser.pos = '\n' ∨ jsGet js parser.pos = ' '
      · simp only [if_pos h4c]
        exact ih _ _ _ j (by first | (dsimp only; omega) | omega) (by first | (dsimp only; omega) | omega)
      simp only [if_neg h4c]
      by_cases h5c : jsGet js parser.pos = ':'
      · simp only [if_pos h5c]
        exact ih _ _ _ j (by first | (dsimp only; omega) | omega) (by first | (dsimp only; omega) | omega)
      simp only [if_neg h5c]
      by_cases h6c : jsGet js parser.pos = ','
      · simp only [if_pos h6c]
        exact ih _ _ _ j (by first | (dsimp only; omega) | omega) (by first | (dsimp only; omega) | omega)
      simp only [if_neg h6c]
      simp only [jsmn_parse_primitive]
      cases hpf : primLoopF js len (len + 1) parser.pos with
      | none => rfl
      | some f =>
        have hnd : ¬(jsGet js parser.pos = ':' ∨ jsGet js parser.pos = '\t' ∨
            jsGet js parser.pos = '\r' ∨ jsGet js parser.pos = '\n' ∨
            jsGet js parser.pos = ' ' ∨ jsGet js parser.pos = ',' ∨
            jsGet js parser.pos = ']' ∨ jsGet js parser.pos = '}') := by
          intro hd
          rcases hd with h | h | h | h | h | h | h | h
          · exact h5c h
          · exact h4c (Or.inl h)
          · exact h4c (Or.inr (Or.inl h))
          · exact h4c (Or.inr (Or.inr (Or.inl h)))
          · exact h4c (Or.inr (Or.inr (Or.inr h)))
          · exact h6c h
          · exact h2c (Or.inr h)
          · exact h2c (Or.inl h)
        have hf1 : parser.pos + 1 ≤ f := primLoopF_first hc0.1 hc0.2 hnd hpf
        cases tokens with
        | none =>
          try dsimp only
          simp only [if_neg (by decide : ¬ (0 : Int) < 0)]
          try dsimp only
          exact ih _ none _ j (by first | (dsimp only; omega) | omega) (by first | (dsimp only; omega) | omega)
        | some toks =>
          try dsimp only
          simp only [jsmn_alloc_token]
          by_cases hcap : cap ≤ parser.toknext
          · simp only [if_pos hcap]
            simp only [if_pos (by decide : JSMN_ERROR_NOMEM < (0 : Int))]
          · simp only [if_neg hcap]
            try dsimp only
            simp only [if_neg (by decide : ¬ (0 : Int) < 0)]
            try dsimp only
            exact ih _ _ _ j (by first | (dsimp only; omega) | omega) (by first | (dsimp only; omega) | omega)

lemma hexLoop_four (js : List Char) (len p : Nat)
    (hh : ∀ i, i < 4 → hexByte (jsGet js (p + i)))
    (hlt : p + 3 < len) :
    hexLoop js len 4 p = some (p + 4) := by
  have h0 := hh 0 (by omega)
  have h1 := hh 1 (by omega)
  have h2 := hh 2 (by omega)
  have h3 := hh 3 (by omega)
  simp only [hexByte] at h0 h1 h2 h3
  simp only [Nat.add_zero] at h0
  rw [hexLoop, if_pos ⟨by omega, hexByte_ne_nul (hh 0 (by omega))⟩, if_pos h0,
    hexLoop, if_pos ⟨by omega, hexByte_ne_nul (hh 1 (by omega))⟩, if_pos h1,
    hexLoop, if_pos ⟨by omega, hexByte_ne_nul (hh 2 (by omega))⟩, if_pos h2,
    hexLoop, if_pos ⟨by omega, hexByte_ne_nul (hh 3 (by omega))⟩, if_pos h3,
    hexLoop]

lemma scontent_scan (js : List Char) (len : Nat) :
    ∀ {a b : Nat}, SContent js a b → b < len → jsGet js b = '"' →
      ∀ fuel, b - a < fuel → strLoopF js len fuel a = .close b := by
  intro a b h
  induction h with
  | nil a =>
    intro hb hq fuel hf
    cases fuel with
    | zero => omega
    | succ k =>
      rw [strLoopF, if_pos ⟨hb, by rw [hq]; decide⟩, if_pos hq]
  | plain a b hnq hnb hnz hsc ih =>
    intro hb hq fuel hf
    have ha : a + 1 ≤ b := SContent_le hsc
    cases fuel with
    | zero => omega
    | succ k =>
      rw [strLoopF, if_pos ⟨by omega, hnz⟩, if_neg hnq, if_neg (fun hh => hnb hh.1)]
      exact ih hb hq k (by omega)
  | esc a b hbs he hsc ih =>
    intro hb hq fuel hf
    have ha : a + 2 ≤ b := SContent_le hsc
    cases fuel with
    | zero => omega
    | succ k =>
      rw [strLoopF, if_pos ⟨by omega, by rw [hbs]; decide⟩, if_neg (by rw [hbs]; decide),
        if_pos ⟨hbs, by omega⟩, if_pos he]
      exact ih hb hq k (by omega)
  | uesc a b hbs hu hhex hsc ih =>
    intro hb hq fuel hf
    have ha : a + 6 ≤ b := SContent_le hsc
    cases fuel with
    | zero => omega
    | succ k =>
      rw [strLoopF, if_pos ⟨by omega, by rw [hbs]; decide⟩, if_neg (by rw [hbs]; decide),
        if_pos ⟨hbs, by omega⟩, if_neg (by rw [hu]; decide), if_pos hu,
        hexLoop_four js len (a + 2) (fun i hi => hhex i hi) (by omega)]
      exact ih hb hq k (by omega)

lemma primLoopF_runs (js : List Char) (len : Nat) :
    ∀ (fuel a b : Nat), (∀ k, a ≤ k → k < b → primByte (jsGet js k)) →
      b ≤ len → (b = len ∨ delimByte (jsGet js b)) → b - a < fuel → a ≤ b →
      primLoopF js len fuel a = some b := by
  intro fuel
  induction fuel with
  | zero =>
    intro a b _ _ _ hf hab
    omega
  | succ k ih =>
    intro a b hp hble hafter hf hab
    rcases Nat.eq_or_lt_of_le hab with rfl | hlt
    · rw [primLoopF]
      rcases hafter with rfl | hd
      · rw [if_neg (fun hc => absurd hc.1 (lt_irrefl a))]
      · by_cases hbl : a < len
        · rw [if_pos ⟨hbl, delimByte_ne_nul hd⟩, if_pos (by
            rcases hd with h | h | h | h | h | h | h | h <;> simp [h])]
        · rw [if_neg (fun hc => hbl hc.1)]
    · rw [primLoopF]
      have hpa := hp a le_rfl hlt
      rw [if_pos ⟨by omega, primByte_ne_nul hpa⟩,
        if_neg (primByte_not_delim hpa),
        if_neg (by
          obtain ⟨hx1, hx2, _⟩ := hpa
          omega)]
      exact ih (a + 1) b (fun k h1 h2 => hp k (by omega) h2) hble hafter (by omega)
        (by omega)

lemma jsmn_parse_string_close {js : List Char} {len q cap : Nat}
    (parser : JsmnParser) (P : List Jsmntok)
    (hs : strLoopF js len (len + 1) (parser.pos + 1) = .close q)
    (hcap : parser.toknext < cap) (hlen : P.length = parser.toknext) :
    jsmn_parse_string parser js len (some P) cap =
      (0, { parser with pos := q, toknext := parser.toknext + 1 },
        some (P ++ [{ type := .JSMN_STRING, start := (parser.pos : Int) + 1,
                      end_ := (q : Int), size := 0 }])) := by
  rw [jsmn_parse_string, hs]
  dsimp only
  rw [jsmn_alloc_token, if_neg (by first | (dsimp only; omega) | omega)]
  dsimp only
  rw [updTok_append_length2 P _ hlen]
  rfl

/-! ### Step lemmas for the main correctness simulation -/

lemma wsByte_delim {c : Char} (h : wsByte c) : delimByte c := by
  rcases h with h | h | h | h
  · exact Or.inr (Or.inl h)
  · exact Or.inr (Or.inr (Or.inl h))
  · exact Or.inr (Or.inr (Or.inr (Or.inl h)))
  · exact Or.inr (Or.inr (Or.inr (Or.inr (Or.inl h))))

lemma getTok_set_eq {toks : List Jsmntok} {i : Nat} (h : i < toks.length) (v : Jsmntok) :
    getTok (toks.set i v) i = v := by
  rw [getTok, List.getD_eq_getElem _ _ (by rw [List.length_set]; exact h)]
  simp [List.getElem_set]

lemma getTok_updTok_size_fields (toks : List Jsmntok) (i m : Nat) :
    (getTok (updTok toks i (fun t => { t with size := t.size + 1 })) m).type =
        (getTok toks m).type ∧
    (getTok (updTok toks i (fun t => { t with size := t.size + 1 })) m).start =
        (getTok toks m).start ∧
    (getTok (updTok toks i (fun t => { t with size := t.size + 1 })) m).end_ =
        (getTok toks m).end_ := by
  by_cases him : i = m
  · subst him
    by_cases hlt : i < toks.length
    · rw [updTok, getTok_set_eq hlt]
      exact ⟨rfl, rfl, rfl⟩
    · rw [updTok, getTok, getTok, List.getD_eq_default _ _ (by rw [List.length_set]; omega),
        List.getD_eq_default _ _ (by omega)]
      exact ⟨rfl, rfl, rfl⟩
  · rw [getTok_updTok_ne _ him]
    exact ⟨rfl, rfl, rfl⟩

lemma findOpen_updTok_size (toks : List Jsmntok) (i : Nat) :
    ∀ n, findOpen (updTok toks i (fun t => { t with size := t.size + 1 })) n =
      findOpen toks n := by
  intro n
  induction n with
  | zero => rfl
  | succ n ih =>
    rw [findOpen, findOpen, ih]
    obtain ⟨-, h2, h3⟩ := getTok_updTok_size_fields toks i n
    rw [h2, h3]

lemma sizeIncr_length (P : List Jsmntok) (s : Int) : (sizeIncr P s).length = P.length := by
  rw [sizeIncr]
  by_cases h : s ≠ -1
  · rw [if_pos h, updTok_length]
  · rw [if_neg h]

lemma findOpen_sizeIncr (P : List Jsmntok) (s : Int) (n : Nat) :
    findOpen (sizeIncr P s) n = findOpen P n := by
  rw [sizeIncr]
  by_cases h : s ≠ -1
  · rw [if_pos h, findOpen_updTok_size]
  · rw [if_neg h]

lemma getTok_mid (Q : List Jsmntok) (ct : Jsmntok) (R : List Jsmntok) :
    getTok (Q ++ ct :: R) Q.length = ct := by
  rw [show Q ++ ct :: R = (Q ++ [ct]) ++ R from by simp]
  rw [getTok_append_lt (by simp), getTok_append_length]

lemma findOpen_after_close (Q : List Jsmntok) (ct : Jsmntok) (R : List Jsmntok)
    (hc : ¬(ct.start ≠ -1 ∧ ct.end_ = -1)) :
    findOpen (Q ++ ct :: R) (Q.length + 1) = findOpen Q Q.length := by
  rw [findOpen, getTok_mid, if_neg hc]
  rw [show Q ++ ct :: R = (Q ++ [ct]) ++ R from by simp]
  rw [findOpen_front _ _ _ (by simp)]
  exact findOpen_front Q [ct] Q.length le_rfl

lemma findOpen_eq_none {toks : List Jsmntok}
    (hcl : ∀ t ∈ toks, t.start ≠ -1 ∧ t.end_ ≠ -1) :
    ∀ {n : Nat}, n ≤ toks.length → findOpen toks n = none := by
  intro n
  induction n with
  | zero => intro _; rfl
  | succ n ih =>
    intro hn
    rw [findOpen, if_neg (fun hx => (hcl _ (getTok_mem (by omega))).2 hx.2)]
    exact ih (by omega)

lemma J_le {js : List Char} :
    ∀ {fm : JForm} {a b n : Nat} {tv : List Jsmntok}, J js fm a b n tv → a ≤ b := by
  intro fm a b n tv h
  induction h with
  | prim a b hab _ => omega
  | str a b _ hsc _ => have := SContent_le hsc; omega
  | arr a b n tv _ _ _ ih => omega
  | obj a b n tv _ _ _ ih => omega
  | enil a b hws => exact hws.1
  | eone a c d b tv hws1 _ hws2 ih => have h1 := hws1.1; have h2 := hws2.1; omega
  | econs a c d e b n tv tvs hws1 _ hws2 _ _ _ ih1 ih2 =>
    have h1 := hws1.1
    have h2 := hws2.1
    omega
  | mnil a b hws => exact hws.1
  | mone a c d e f g b tv hws1 _ hsc _ hws2 _ hws3 _ hws4 ih =>
    have h1 := hws1.1
    have h2 := SContent_le hsc
    have h3 := hws2.1
    have h4 := hws3.1
    have h5 := hws4.1
    omega
  | mcons a c d e f g h2 b n tv tvs hws1 _ hsc _ hws2 _ hws3 _ hws4 _ _ _ ih1 ih2 =>
    have k1 := hws1.1
    have k2 := SContent_le hsc
    have k3 := hws2.1
    have k4 := hws3.1
    have k5 := hws4.1
    omega

lemma parseLoopF_congr (js : List Char) (len cap f : Nat)
    {p1 p2 t1 t2 : Nat} {s1 s2 : Int} {L1 L2 : List Jsmntok} {c1 c2 : Int}
    (hp : p1 = p2) (ht : t1 = t2) (hs : s1 = s2) (hL : L1 = L2) (hc : c1 = c2) :
    parseLoopF js len cap f { pos := p1, toknext := t1, toksuper := s1 } (some L1) c1 =
      parseLoopF js len cap f { pos := p2, toknext := t2, toksuper := s2 } (some L2) c2 := by
  subst hp
  subst ht
  subst hs
  subst hL
  subst hc
  rfl

lemma cons_congr_head (Q T : List Jsmntok) {A B : Jsmntok} (h : A = B) :
    Q ++ A :: T = Q ++ B :: T := by rw [h]

lemma tok_upd_size_congr (ct : Jsmntok) {z1 z2 : Int} (h : z1 = z2) :
    ({ ct with size := z1 } : Jsmntok) = { ct with size := z2 } := by rw [h]

lemma ws_run (js : List Char) (len cap : Nat) :
    ∀ (m x y tn : Nat) (ts : Int) (tokens : Option (List Jsmntok)) (count : Int)
      (f f2 : Nat), y - x ≤ m → Ws js x y → y ≤ len →
      len - x < f → len - y < f2 →
      parseLoopF js len cap f { pos := x, toknext := tn, toksuper := ts } tokens count =
        parseLoopF js len cap f2 { pos := y, toknext := tn, toksuper := ts } tokens count := by
  intro m
  induction m with
  | zero =>
    intro x y tn ts tokens count f f2 hm hws hy hf hf2
    have hxy : x = y := by have := hws.1; omega
    subst hxy
    exact parseLoopF_fuel js len cap f _ tokens count f2 (by dsimp only; omega)
      (by dsimp only; omega)
  | succ m ih =>
    intro x y tn ts tokens count f f2 hm hws hy hf hf2
    rcases Nat.eq_or_lt_of_le hws.1 with heq | hlt
    · subst heq
      exact parseLoopF_fuel js len cap f _ tokens count f2 (by dsimp only; omega)
        (by dsimp only; omega)
    · cases f with
      | zero => omega
      | succ k =>
        have hwx : wsByte (jsGet js x) := hws.2 x le_rfl hlt
        simp only [parseLoopF]
        dsimp only
        rw [if_pos (⟨by omega, by rcases hwx with h | h | h | h <;> rw [h] <;> decide⟩ :
            x < len ∧ jsGet js x ≠ '\x00'),
          if_neg (by rcases hwx with h | h | h | h <;> rw [h] <;> decide :
            ¬(jsGet js x = '{' ∨ jsGet js x = '[')),
          if_neg (by rcases hwx with h | h | h | h <;> rw [h] <;> decide :
            ¬(jsGet js x = '}' ∨ jsGet js x = ']')),
          if_neg (by rcases hwx with h | h | h | h <;> rw [h] <;> decide :
            ¬(jsGet js x = '"')),
          if_pos (show jsGet js x = '\t' ∨ jsGet js x = '\r' ∨ jsGet js x = '\n' ∨
            jsGet js x = ' ' from hwx)]
        exact ih (x + 1) y tn ts tokens count k f2 (by omega)
          ⟨by omega, fun j hj1 hj2 => hws.2 j (by omega) hj2⟩ hy (by omega) hf2


lemma step_open {js : List Char} {len cap : Nat} {a : Nat} {sup : Int}
    (P : List Jsmntok) (tn : Nat) (count : Int) (f f2 : Nat)
    (htn : P.length = tn)
    (hbr : jsGet js a = '{' ∨ jsGet js a = '[')
    (halen : a < len)
    (hsup : sup ≠ -1 → sup.toNat < P.length) (hcap : P.length < cap)
    (hf : len - a < f) (hf2 : len - (a + 1) < f2) :
    parseLoopF js len cap f { pos := a, toknext := tn, toksuper := sup }
        (some P) count =
      parseLoopF js len cap f2
        { pos := a + 1, toknext := tn + 1, toksuper := (tn : Int) }
        (some (sizeIncr P sup ++
          [{ type := if jsGet js a = '{' then Jsmntype.JSMN_OBJECT else Jsmntype.JSMN_ARRAY,
             start := (a : Int), end_ := -1, size := 0 }]))
        (count + 1) := by
  subst htn
  cases f with
  | zero => omega
  | succ k =>
    simp only [parseLoopF]
    try dsimp only
    rw [if_pos (⟨halen, by rcases hbr with h | h <;> rw [h] <;> decide⟩ :
        a < len ∧ jsGet js a ≠ '\x00'),
      if_pos hbr, jsmn_alloc_token]
    try dsimp only
    rw [if_neg (by omega : ¬ cap ≤ P.length)]
    try dsimp only
    by_cases hs : sup ≠ -1
    · rw [if_pos hs, updTok_append_left P _ _ (hsup hs),
        updTok_append_length2 _ _ (updTok_length P sup.toNat _) _,
        show updTok P sup.toNat (fun t => { t with size := t.size + 1 }) = sizeIncr P sup
          from by rw [sizeIncr, if_pos hs]]
      exact parseLoopF_fuel js len cap k _ _ _ f2 (by dsimp only; omega)
        (by dsimp only; omega)
    · rw [if_neg hs, updTok_append_length2 _ _ rfl _,
        show sizeIncr P sup = P from by rw [sizeIncr, if_neg hs]]
      exact parseLoopF_fuel js len cap k _ _ _ f2 (by dsimp only; omega)
        (by dsimp only; omega)

lemma step_close {js : List Char} {len cap : Nat} {b : Nat} {sup : Int}
    (Q : List Jsmntok) (qn tn : Nat) (ct : Jsmntok) (R : List Jsmntok)
    (count : Int) (f f2 : Nat)
    (hqn : Q.length = qn) (htn : tn = qn + 1 + R.length)
    (hbr : jsGet js b = '}' ∨ jsGet js b = ']')
    (hblen : b < len)
    (htype : ct.type =
      (if jsGet js b = '}' then Jsmntype.JSMN_OBJECT else Jsmntype.JSMN_ARRAY))
    (hopen : ct.start ≠ -1 ∧ ct.end_ = -1)
    (hR : ∀ t ∈ R, ¬(t.start ≠ -1 ∧ t.end_ = -1))
    (hf : len - b < f) (hf2 : len - (b + 1) < f2) :
    parseLoopF js len cap f
        { pos := b, toknext := tn, toksuper := sup }
        (some (Q ++ ct :: R)) count =
      parseLoopF js len cap f2
        { pos := b + 1, toknext := tn,
          toksuper := oInt (findOpen Q qn) }
        (some (Q ++ { ct with end_ := (b : Int) + 1 } :: R)) count := by
  subst hqn
  subst htn
  cases f with
  | zero => omega
  | succ k =>
    simp only [parseLoopF]
    try dsimp only
    rw [if_pos (⟨hblen, by rcases hbr with h | h <;> rw [h] <;> decide⟩ :
        b < len ∧ jsGet js b ≠ '\x00'),
      if_neg (by rcases hbr with h | h <;> rw [h] <;> decide :
        ¬(jsGet js b = '{' ∨ jsGet js b = '[')),
      if_pos hbr]
    rw [findOpen_mid Q R ct hR hopen]
    try dsimp only
    rw [if_neg (show ¬(getTok (Q ++ ct :: R) Q.length).type ≠
        (if jsGet js b = '}' then Jsmntype.JSMN_OBJECT else Jsmntype.JSMN_ARRAY)
        from by rw [getTok_mid]; exact fun hne => hne htype)]
    rw [updTok_append_mid]
    try dsimp only
    rw [findOpen_after_close Q _ R (by
      intro hx
      have := hx.2
      dsimp only at this
      omega)]
    cases hfo : findOpen Q Q.length with
    | none =>
      dsimp only [oInt]
      exact parseLoopF_fuel js len cap k _ _ _ f2 (by dsimp only; omega)
        (by dsimp only; omega)
    | some j =>
      dsimp only [oInt]
      exact parseLoopF_fuel js len cap k _ _ _ f2 (by dsimp only; omega)
        (by dsimp only; omega)

lemma step_string {js : List Char} {len cap : Nat} {c d : Nat} {sup : Int}
    (P : List Jsmntok) (tn : Nat) (count : Int) (f f2 : Nat)
    (htn : P.length = tn)
    (hq1 : jsGet js c = '"') (hsc : SContent js (c + 1) d) (hq2 : jsGet js d = '"')
    (hdlen : d < len)
    (hsup : sup ≠ -1 → sup.toNat < P.length) (hcap : P.length < cap)
    (hf : len - c < f) (hf2 : len - (d + 1) < f2) :
    parseLoopF js len cap f { pos := c, toknext := tn, toksuper := sup }
        (some P) count =
      parseLoopF js len cap f2
        { pos := d + 1, toknext := tn + 1, toksuper := sup }
        (some (sizeIncr P sup ++
          [{ type := Jsmntype.JSMN_STRING, start := (c : Int) + 1, end_ := (d : Int), size := 0 }]))
        (count + 1) := by
  subst htn
  have hcd : c + 1 ≤ d := SContent_le hsc
  cases f with
  | zero => omega
  | succ k =>
    simp only [parseLoopF]
    try dsimp only
    rw [if_pos (⟨by omega, by rw [hq1]; decide⟩ : c < len ∧ jsGet js c ≠ '\x00'),
      if_neg (by rw [hq1]; decide : ¬(jsGet js c = '{' ∨ jsGet js c = '[')),
      if_neg (by rw [hq1]; decide : ¬(jsGet js c = '}' ∨ jsGet js c = ']')),
      if_pos hq1]
    rw [jsmn_parse_string_close { pos := c, toknext := P.length, toksuper := sup } P
      (scontent_scan js len hsc hdlen hq2 (len + 1) (by omega)) hcap rfl]
    try dsimp only
    rw [if_neg (by decide : ¬ (0 : Int) < 0)]
    try dsimp only
    by_cases hs : sup ≠ -1
    · rw [if_pos hs, updTok_append_left P _ _ (hsup hs),
        show updTok P sup.toNat (fun t => { t with size := t.size + 1 }) = sizeIncr P sup
          from by rw [sizeIncr, if_pos hs]]
      exact parseLoopF_fuel js len cap k _ _ _ f2 (by dsimp only; omega)
        (by dsimp only; omega)
    · rw [if_neg hs, show sizeIncr P sup = P from by rw [sizeIncr, if_neg hs]]
      exact parseLoopF_fuel js len cap k _ _ _ f2 (by dsimp only; omega)
        (by dsimp only; omega)

lemma step_prim {js : List Char} {len cap : Nat} {a b : Nat} {sup : Int}
    (P : List Jsmntok) (tn : Nat) (count : Int) (f f2 : Nat)
    (htn : P.length = tn)
    (hab : a < b) (hp : ∀ k, a ≤ k → k < b → primByte (jsGet js k))
    (hble : b ≤ len) (hafter : b = len ∨ delimByte (jsGet js b))
    (hsup : sup ≠ -1 → sup.toNat < P.length) (hcap : P.length < cap)
    (hf : len - a < f) (hf2 : len - b < f2) :
    parseLoopF js len cap f { pos := a, toknext := tn, toksuper := sup }
        (some P) count =
      parseLoopF js len cap f2
        { pos := b, toknext := tn + 1, toksuper := sup }
        (some (sizeIncr P sup ++
          [{ type := Jsmntype.JSMN_PRIMITIVE, start := (a : Int), end_ := (b : Int),
             size := 0 }]))
        (count + 1) := by
  subst htn
  have hpa : primByte (jsGet js a) := hp a le_rfl hab
  obtain ⟨hge, hlt127, hnb1, hnb2, hnb3, hnb4, hnb5, hnb6, hnb7, hnb8⟩ := hpa
  have halen : a < len := by omega
  have hnz : jsGet js a ≠ '\x00' := by
    intro h
    rw [h] at hge
    exact absurd hge (by decide)
  cases f with
  | zero => omega
  | succ k =>
    simp only [parseLoopF]
    try dsimp only
    rw [if_pos (⟨halen, hnz⟩ : a < len ∧ jsGet js a ≠ '\x00'),
      if_neg (show ¬(jsGet js a = '{' ∨ jsGet js a = '[') from by
        intro h; rcases h with h | h; exacts [hnb1 h, hnb2 h]),
      if_neg (show ¬(jsGet js a = '}' ∨ jsGet js a = ']') from by
        intro h; rcases h with h | h; exacts [hnb3 h, hnb4 h]),
      if_neg hnb5,
      if_neg (show ¬(jsGet js a = '\t' ∨ jsGet js a = '\r' ∨ jsGet js a = '\n' ∨
          jsGet js a = ' ') from by
        intro h
        rcases h with h | h | h | h
        · rw [h] at hge; exact absurd hge (by decide)
        · rw [h] at hge; exact absurd hge (by decide)
        · rw [h] at hge; exact absurd hge (by decide)
        · exact hnb8 h),
      if_neg hnb6, if_neg hnb7]
    simp only [jsmn_parse_primitive]
    try dsimp only
    rw [primLoopF_runs js len (len + 1) a b hp hble hafter (by omega) (by omega)]
    try dsimp only
    rw [jsmn_alloc_token]
    try dsimp only
    rw [if_neg (by omega : ¬ cap ≤ P.length)]
    try dsimp only
    rw [if_neg (by decide : ¬ (0 : Int) < 0)]
    try dsimp only
    rw [updTok_append_length2 P _ rfl]
    by_cases hs : sup ≠ -1
    · rw [if_pos hs, updTok_append_left P _ _ (hsup hs),
        show updTok P sup.toNat (fun t => { t with size := t.size + 1 }) = sizeIncr P sup
          from by rw [sizeIncr, if_pos hs]]
      rw [show b - 1 + 1 = b from by omega]
      exact parseLoopF_fuel js len cap k _ _ _ f2 (by dsimp only; omega)
        (by dsimp only; omega)
    · rw [if_neg hs, show sizeIncr P sup = P from by rw [sizeIncr, if_neg hs]]
      rw [show b - 1 + 1 = b from by omega]
      exact parseLoopF_fuel js len cap k _ _ _ f2 (by dsimp only; omega)
        (by dsimp only; omega)

lemma step_colon {js : List Char} {len cap : Nat} {e : Nat} (tn : Nat) (sup : Int)
    (tokens : Option (List Jsmntok)) (count : Int) (f f2 : Nat)
    (hc : jsGet js e = ':') (helen : e < len)
    (hf : len - e < f) (hf2 : len - (e + 1) < f2) :
    parseLoopF js len cap f { pos := e, toknext := tn, toksuper := sup } tokens count =
      parseLoopF js len cap f2
        { pos := e + 1, toknext := tn, toksuper := (tn : Int) - 1 } tokens count := by
  cases f with
  | zero => omega
  | succ k =>
    simp only [parseLoopF]
    try dsimp only
    rw [if_pos (⟨helen, by rw [hc]; decide⟩ : e < len ∧ jsGet js e ≠ '\x00'),
      if_neg (by rw [hc]; decide : ¬(jsGet js e = '{' ∨ jsGet js e = '[')),
      if_neg (by rw [hc]; decide : ¬(jsGet js e = '}' ∨ jsGet js e = ']')),
      if_neg (by rw [hc]; decide : ¬(jsGet js e = '"')),
      if_neg (by rw [hc]; decide : ¬(jsGet js e = '\t' ∨ jsGet js e = '\r' ∨
        jsGet js e = '\n' ∨ jsGet js e = ' ')),
      if_pos hc]
    exact parseLoopF_fuel js len cap k _ tokens count f2 (by dsimp only; omega) hf2

lemma step_comma_keep {js : List Char} {len cap : Nat} {e : Nat} (i tn : Nat)
    (toks : List Jsmntok) (count : Int) (f f2 : Nat)
    (hc : jsGet js e = ',') (helen : e < len)
    (hty : (getTok toks i).type = Jsmntype.JSMN_ARRAY ∨
      (getTok toks i).type = Jsmntype.JSMN_OBJECT)
    (hf : len - e < f) (hf2 : len - (e + 1) < f2) :
    parseLoopF js len cap f { pos := e, toknext := tn, toksuper := (i : Int) }
        (some toks) count =
      parseLoopF js len cap f2 { pos := e + 1, toknext := tn, toksuper := (i : Int) }
        (some toks) count := by
  cases f with
  | zero => omega
  | succ k =>
    simp only [parseLoopF]
    try dsimp only
    rw [if_pos (⟨helen, by rw [hc]; decide⟩ : e < len ∧ jsGet js e ≠ '\x00'),
      if_neg (by rw [hc]; decide : ¬(jsGet js e = '{' ∨ jsGet js e = '[')),
      if_neg (by rw [hc]; decide : ¬(jsGet js e = '}' ∨ jsGet js e = ']')),
      if_neg (by rw [hc]; decide : ¬(jsGet js e = '"')),
      if_neg (by rw [hc]; decide : ¬(jsGet js e = '\t' ∨ jsGet js e = '\r' ∨
        jsGet js e = '\n' ∨ jsGet js e = ' ')),
      if_neg (by rw [hc]; decide : ¬(jsGet js e = ':')),
      if_pos hc]
    rw [if_neg (show ¬((i : Int) ≠ -1 ∧
        (getTok toks ((i : Int)).toNat).type ≠ Jsmntype.JSMN_ARRAY ∧
        (getTok toks ((i : Int)).toNat).type ≠ Jsmntype.JSMN_OBJECT) from by
      intro h
      rcases hty with h' | h'
      · exact h.2.1 h'
      · exact h.2.2 h')]
    exact parseLoopF_fuel js len cap k _ _ count f2 (by dsimp only; omega) hf2

lemma step_comma_fc {js : List Char} {len cap : Nat} {e : Nat} (k2 : Nat)
    (Q : List Jsmntok) (qn tn : Nat) (ct : Jsmntok) (R : List Jsmntok)
    (count : Int) (f f2 : Nat)
    (hqn : Q.length = qn) (htn : tn = qn + 1 + R.length)
    (hc : jsGet js e = ',') (helen : e < len)
    (hkty : (getTok (Q ++ ct :: R) k2).type = Jsmntype.JSMN_STRING)
    (hct : ct.type = Jsmntype.JSMN_ARRAY ∨ ct.type = Jsmntype.JSMN_OBJECT)
    (hopen : ct.start ≠ -1 ∧ ct.end_ = -1)
    (hR : ∀ t ∈ R, ¬(t.start ≠ -1 ∧ t.end_ = -1))
    (hf : len - e < f) (hf2 : len - (e + 1) < f2) :
    parseLoopF js len cap f
        { pos := e, toknext := tn, toksuper := (k2 : Int) }
        (some (Q ++ ct :: R)) count =
      parseLoopF js len cap f2
        { pos := e + 1, toknext := tn,
          toksuper := (qn : Int) }
        (some (Q ++ ct :: R)) count := by
  subst hqn
  subst htn
  cases f with
  | zero => omega
  | succ k =>
    simp only [parseLoopF]
    try dsimp only
    rw [if_pos (⟨helen, by rw [hc]; decide⟩ : e < len ∧ jsGet js e ≠ '\x00'),
      if_neg (by rw [hc]; decide : ¬(jsGet js e = '{' ∨ jsGet js e = '[')),
      if_neg (by rw [hc]; decide : ¬(jsGet js e = '}' ∨ jsGet js e = ']')),
      if_neg (by rw [hc]; decide : ¬(jsGet js e = '"')),
      if_neg (by rw [hc]; decide : ¬(jsGet js e = '\t' ∨ jsGet js e = '\r' ∨
        jsGet js e = '\n' ∨ jsGet js e = ' ')),
      if_neg (by rw [hc]; decide : ¬(jsGet js e = ':')),
      if_pos hc]
    rw [if_pos (⟨by omega,
        show (getTok (Q ++ ct :: R) ((k2 : Int)).toNat).type ≠ Jsmntype.JSMN_ARRAY from by
          rw [show ((k2 : Int)).toNat = k2 from rfl, hkty]; decide,
        show (getTok (Q ++ ct :: R) ((k2 : Int)).toNat).type ≠ Jsmntype.JSMN_OBJECT from by
          rw [show ((k2 : Int)).toNat = k2 from rfl, hkty]; decide⟩ :
      (k2 : Int) ≠ -1 ∧
        (getTok (Q ++ ct :: R) ((k2 : Int)).toNat).type ≠ Jsmntype.JSMN_ARRAY ∧
        (getTok (Q ++ ct :: R) ((k2 : Int)).toNat).type ≠ Jsmntype.JSMN_OBJECT)]
    rw [findOpenContainer_mid Q R ct hR hct hopen]
    try dsimp only
    exact parseLoopF_fuel js len cap k _ _ count f2 (by dsimp only; omega) hf2

lemma step_exit {js : List Char} {len cap : Nat} (tn : Nat) (sup : Int)
    (toks : List Jsmntok) (count : Int) (f : Nat)
    (hfo : findOpen toks tn = none) (hf : 0 < f) :
    parseLoopF js len cap f { pos := len, toknext := tn, toksuper := sup }
        (some toks) count =
      (count, { pos := len, toknext := tn, toksuper := sup }, some toks) := by
  cases f with
  | zero => omega
  | succ k =>
    simp only [parseLoopF]
    try dsimp only
    rw [if_neg (show ¬(len < len ∧ jsGet js len ≠ '\x00') from fun h =>
      absurd h.1 (lt_irrefl len))]
    rw [hfo]
    rfl


lemma sim_prim (js : List Char) (len cap : Nat) (a b : Nat)
    (hab : a < b) (hp : ∀ k, a ≤ k → k < b → primByte (jsGet js k)) :
    JMotive js len cap .value a b 0
      [{ type := .JSMN_PRIMITIVE, start := (a : Int), end_ := (b : Int), size := 0 }] := by
  dsimp only [JMotive]
  intro P tn sup count f f2 htn hsup hcap hble hafter hf hf2
  subst htn
  refine ⟨sup, Or.inl rfl, ?_⟩
  exact step_prim P P.length count f f2 rfl hab hp hble hafter hsup
    (by simp only [List.length_singleton] at hcap; omega) hf hf2

lemma sim_str (js : List Char) (len cap : Nat) (a b : Nat)
    (hq1 : jsGet js a = '"') (hsc : SContent js (a + 1) b) (hq2 : jsGet js b = '"') :
    JMotive js len cap .value a (b + 1) 0
      [{ type := .JSMN_STRING, start := (a : Int) + 1, end_ := (b : Int), size := 0 }] := by
  dsimp only [JMotive]
  intro P tn sup count f f2 htn hsup hcap hble hafter hf hf2
  subst htn
  refine ⟨sup, Or.inl rfl, ?_⟩
  exact step_string P P.length count f f2 rfl hq1 hsc hq2 (by omega) hsup
    (by simp only [List.length_singleton] at hcap; omega) hf hf2

lemma sim_enil (js : List Char) (len cap : Nat) (a b : Nat) (hws : Ws js a b) :
    JMotive js len cap .elems a b 0 [] := by
  dsimp only [JMotive]
  intro Q qn ct R tn count f f2 hqn htn hst hen hty hR hcap hble hdel hf hf2
  subst hqn
  subst htn
  refine Eq.trans (ws_run js len cap (b - a) a b _ _ _ count f f2 le_rfl hws hble hf hf2) ?_
  exact parseLoopF_congr js len cap f2 rfl (by simp) rfl
    (by simp only [List.append_nil]
        exact cons_congr_head Q R (by cases ct; simp)) (by simp)

lemma sim_mnil (js : List Char) (len cap : Nat) (a b : Nat) (hws : Ws js a b) :
    JMotive js len cap .membs a b 0 [] := by
  dsimp only [JMotive]
  intro Q qn ct R tn count f f2 hqn htn hst hen hty hR hcap hble hdel hf hf2
  subst hqn
  subst htn
  refine ⟨(Q.length : Int), ?_⟩
  refine Eq.trans (ws_run js len cap (b - a) a b _ _ _ count f f2 le_rfl hws hble hf hf2) ?_
  exact parseLoopF_congr js len cap f2 rfl (by simp) rfl
    (by simp only [List.append_nil]
        exact cons_congr_head Q R (by cases ct; simp)) (by simp)


lemma sim_arr (js : List Char) (len cap : Nat) (a b n : Nat) (tv : List Jsmntok)
    (ha : jsGet js a = '[') (hb : jsGet js b = ']')
    (helems : J js .elems (a + 1) b n tv)
    (ih : JMotive js len cap .elems (a + 1) b n tv) :
    JMotive js len cap .value a (b + 1) 0
      ({ type := .JSMN_ARRAY, start := (a : Int), end_ := (b : Int) + 1,
         size := (n : Int) } :: tv) := by
  dsimp only [JMotive] at ih ⊢
  intro P tn sup count f f2 htn hsup hcap hble hafter hf hf2
  subst htn
  have hble' : b < len := by omega
  have halen : a < len := by have := J_le helems; omega
  refine ⟨oInt (findOpen P P.length), Or.inr rfl, ?_⟩
  refine Eq.trans (step_open P P.length count f (len + 1) rfl (Or.inr ha) halen hsup
    (by simp only [List.length_cons] at hcap; omega) hf (by omega)) ?_
  rw [show (if jsGet js a = '{' then Jsmntype.JSMN_OBJECT else Jsmntype.JSMN_ARRAY) =
    Jsmntype.JSMN_ARRAY from by rw [ha]; decide]
  refine Eq.trans (ih (sizeIncr P sup) P.length
    { type := Jsmntype.JSMN_ARRAY, start := (a : Int), end_ := -1, size := 0 } []
    (P.length + 1)
    (count + 1) (len + 1) (len + 1)
    (sizeIncr_length P sup) (by simp)
    (by dsimp only; omega) rfl rfl
    (fun t ht => absurd ht (List.not_mem_nil t))
    (by simp only [List.length_cons] at hcap; omega)
    (by omega)
    (Or.inr (Or.inr (Or.inr (Or.inr (Or.inr (Or.inr (Or.inl hb)))))))
    (by omega) (by omega)) ?_
  refine Eq.trans (step_close (sizeIncr P sup) P.length (P.length + 1 + tv.length) _ _
    (count + 1 + (tv.length : Int)) (len + 1) f2
    (sizeIncr_length P sup) (by simp)
    (Or.inr hb) hble'
    (by rw [hb, if_neg (by decide : ¬ (']' : Char) = '}')])
    ⟨by dsimp only; omega, rfl⟩
    (by intro t ht
        have hcl := J_tokens_closed helems t (by simpa using ht)
        exact fun hx => hcl.2 hx.2)
    (by omega) hf2) ?_
  exact parseLoopF_congr js len cap f2 rfl
    (by simp only [List.nil_append, List.length_cons]; omega)
    (by rw [findOpen_sizeIncr])
    (by simp only [List.nil_append]
        exact cons_congr_head _ _ (by simp))
    (by simp only [List.length_cons]; omega)

lemma sim_obj (js : List Char) (len cap : Nat) (a b n : Nat) (tv : List Jsmntok)
    (ha : jsGet js a = '{') (hb : jsGet js b = '}')
    (hmembs : J js .membs (a + 1) b n tv)
    (ih : JMotive js len cap .membs (a + 1) b n tv) :
    JMotive js len cap .value a (b + 1) 0
      ({ type := .JSMN_OBJECT, start := (a : Int), end_ := (b : Int) + 1,
         size := (n : Int) } :: tv) := by
  dsimp only [JMotive] at ih ⊢
  intro P tn sup count f f2 htn hsup hcap hble hafter hf hf2
  subst htn
  have hble' : b < len := by omega
  have halen : a < len := by have := J_le hmembs; omega
  refine ⟨oInt (findOpen P P.length), Or.inr rfl, ?_⟩
  obtain ⟨s2, hsim⟩ := ih (sizeIncr P sup) P.length
    { type := Jsmntype.JSMN_OBJECT, start := (a : Int), end_ := -1, size := 0 } []
    (P.length + 1)
    (count + 1) (len + 1) (len + 1)
    (sizeIncr_length P sup) (by simp)
    (by dsimp only; omega) rfl rfl
    (fun t ht => absurd ht (List.not_mem_nil t))
    (by simp only [List.length_cons] at hcap; omega)
    (by omega)
    (Or.inr (Or.inr (Or.inr (Or.inr (Or.inr (Or.inr (Or.inr hb)))))))
    (by omega) (by omega)
  refine Eq.trans (step_open P P.length count f (len + 1) rfl (Or.inl ha) halen hsup
    (by simp only [List.length_cons] at hcap; omega) hf (by omega)) ?_
  rw [show (if jsGet js a = '{' then Jsmntype.JSMN_OBJECT else Jsmntype.JSMN_ARRAY) =
    Jsmntype.JSMN_OBJECT from by rw [ha]; decide]
  refine Eq.trans hsim ?_
  refine Eq.trans (step_close (sizeIncr P sup) P.length (P.length + 1 + tv.length) _ _
    (count + 1 + (tv.length : Int)) (len + 1) f2
    (sizeIncr_length P sup) (by simp)
    (Or.inl hb) hble'
    (by rw [hb, if_pos rfl])
    ⟨by dsimp only; omega, rfl⟩
    (by intro t ht
        have hcl := J_tokens_closed hmembs t (by simpa using ht)
        exact fun hx => hcl.2 hx.2)
    (by omega) hf2) ?_
  exact parseLoopF_congr js len cap f2 rfl
    (by simp only [List.nil_append, List.length_cons]; omega)
    (by rw [findOpen_sizeIncr])
    (by simp only [List.nil_append]
        exact cons_congr_head _ _ (by simp))
    (by simp only [List.length_cons]; omega)


lemma sim_eone (js : List Char) (len cap : Nat) (a c d b : Nat) (tv : List Jsmntok)
    (hws1 : Ws js a c) (hval : J js .value c d 0 tv) (hws2 : Ws js d b)
    (ih : JMotive js len cap .value c d 0 tv) :
    JMotive js len cap .elems a b 1 tv := by
  dsimp only [JMotive] at ih ⊢
  intro Q qn ct R tn count f f2 hqn htn hst hen hty hR hcap hble hdel hf hf2
  subst hqn
  subst htn
  have hac : a ≤ c := hws1.1
  have hcd : c ≤ d := J_le hval
  have hdb : d ≤ b := hws2.1
  have hafterv : d = len ∨ delimByte (jsGet js d) := by
    rcases Nat.eq_or_lt_of_le hdb with heq | hlt
    · subst heq
      exact Or.inr hdel
    · exact Or.inr (wsByte_delim (hws2.2 d le_rfl hlt))
  obtain ⟨sup2, hsup2, hsim⟩ := ih (Q ++ ct :: R) (Q.length + 1 + R.length)
    (Q.length : Int) count (len + 1) (len + 1)
    (by simp only [List.length_append, List.length_cons]; omega)
    (by intro h
        simp only [Int.toNat_natCast, List.length_append, List.length_cons]
        omega)
    (by simp only [List.length_append, List.length_cons]; omega)
    (by omega) hafterv (by omega) (by omega)
  have hfo : findOpen (Q ++ ct :: R) (Q.length + 1 + R.length) = some Q.length :=
    findOpen_mid Q R ct (fun t ht hx => (hR t ht).2 hx.2) ⟨hst, hen⟩
  have hsup2e : sup2 = (Q.length : Int) := by
    rcases hsup2 with h | h
    · exact h
    · rw [h, hfo]
      rfl
  subst hsup2e
  have hsz : sizeIncr (Q ++ ct :: R) (Q.length : Int) =
      Q ++ { ct with size := ct.size + 1 } :: R := by
    rw [sizeIncr, if_pos (by omega : (Q.length : Int) ≠ -1),
      show ((Q.length : Int)).toNat = Q.length from rfl]
    exact updTok_append_mid Q R ct _
  rw [hsz] at hsim
  refine Eq.trans (ws_run js len cap (c - a) a c _ _ _ count f (len + 1) le_rfl hws1
    (by omega) hf (by omega)) ?_
  refine Eq.trans hsim ?_
  refine Eq.trans (ws_run js len cap (b - d) d b _ _ _ _ (len + 1) f2 le_rfl hws2 hble
    (by omega) hf2) ?_
  exact parseLoopF_congr js len cap f2 rfl rfl rfl
    (by simp only [List.append_assoc, List.cons_append, Nat.cast_one]) rfl

lemma sim_econs (js : List Char) (len cap : Nat) (a c d e b n : Nat)
    (tv tvs : List Jsmntok)
    (hws1 : Ws js a c) (hval : J js .value c d 0 tv) (hws2 : Ws js d e)
    (hcm : jsGet js e = ',') (htail : J js .elems (e + 1) b n tvs)
    (ihval : JMotive js len cap .value c d 0 tv)
    (ihtail : JMotive js len cap .elems (e + 1) b n tvs) :
    JMotive js len cap .elems a b (n + 1) (tv ++ tvs) := by
  dsimp only [JMotive] at ihval ihtail ⊢
  intro Q qn ct R tn count f f2 hqn htn hst hen hty hR hcap hble hdel hf hf2
  subst hqn
  subst htn
  have hac : a ≤ c := hws1.1
  have hcd : c ≤ d := J_le hval
  have hde : d ≤ e := hws2.1
  have heb : e < b := by have := J_le htail; omega
  have helen : e < len := by omega
  have hafterv : d = len ∨ delimByte (jsGet js d) := by
    rcases Nat.eq_or_lt_of_le hde with heq | hlt
    · subst heq
      exact Or.inr (Or.inr (Or.inr (Or.inr (Or.inr (Or.inr (Or.inl hcm))))))
    · exact Or.inr (wsByte_delim (hws2.2 d le_rfl hlt))
  obtain ⟨sup2, hsup2, hsim⟩ := ihval (Q ++ ct :: R) (Q.length + 1 + R.length)
    (Q.length : Int) count (len + 1) (len + 1)
    (by simp only [List.length_append, List.length_cons]; omega)
    (by intro h
        simp only [Int.toNat_natCast, List.length_append, List.length_cons]
        omega)
    (by simp only [List.length_append, List.length_cons] at hcap ⊢; omega)
    (by omega) hafterv (by omega) (by omega)
  have hfo : findOpen (Q ++ ct :: R) (Q.length + 1 + R.length) = some Q.length :=
    findOpen_mid Q R ct (fun t ht hx => (hR t ht).2 hx.2) ⟨hst, hen⟩
  have hsup2e : sup2 = (Q.length : Int) := by
    rcases hsup2 with h | h
    · exact h
    · rw [h, hfo]
      rfl
  subst hsup2e
  have hsz : sizeIncr (Q ++ ct :: R) (Q.length : Int) =
      Q ++ { ct with size := ct.size + 1 } :: R := by
    rw [sizeIncr, if_pos (by omega : (Q.length : Int) ≠ -1),
      show ((Q.length : Int)).toNat = Q.length from rfl]
    exact updTok_append_mid Q R ct _
  rw [hsz, List.append_assoc, List.cons_append] at hsim
  refine Eq.trans (ws_run js len cap (c - a) a c _ _ _ count f (len + 1) le_rfl hws1
    (by omega) hf (by omega)) ?_
  refine Eq.trans hsim ?_
  refine Eq.trans (ws_run js len cap (e - d) d e _ _ _ _ (len + 1) (len + 1) le_rfl hws2
    (by omega) (by omega) (by omega)) ?_
  refine Eq.trans (step_comma_keep Q.length (Q.length + 1 + R.length + tv.length)
    (Q ++ { ct with size := ct.size + 1 } :: (R ++ tv)) (count + (tv.length : Int))
    (len + 1) (len + 1) hcm helen
    (Or.inl (by rw [getTok_mid]; exact hty))
    (by omega) (by omega)) ?_
  refine Eq.trans (ihtail Q Q.length { ct with size := ct.size + 1 } (R ++ tv)
    (Q.length + 1 + R.length + tv.length) (count + (tv.length : Int)) (len + 1) f2
    rfl (by simp only [List.length_append]; omega)
    hst hen hty
    (by intro t ht
        rcases List.mem_append.mp ht with h | h
        · exact hR t h
        · exact J_tokens_closed hval t h)
    (by simp only [List.length_append] at hcap ⊢; omega)
    hble hdel (by omega) hf2) ?_
  exact parseLoopF_congr js len cap f2 rfl
    (by simp only [List.length_append]; omega)
    rfl
    (by rw [List.append_assoc]
        exact cons_congr_head _ _ (by
          refine tok_upd_size_congr ct ?_
          push_cast
          ring))
    (by simp only [List.length_append]; push_cast; ring)


lemma getTok_mid2 (Q : List Jsmntok) (ct : Jsmntok) (R : List Jsmntok) (i : Nat)
    (h : Q.length = i) : getTok (Q ++ ct :: R) i = ct := h ▸ getTok_mid Q ct R

lemma sim_mone (js : List Char) (len cap : Nat) (a c d e p g b : Nat) (tv : List Jsmntok)
    (hws1 : Ws js a c)
    (hq1 : jsGet js c = '"') (hsc : SContent js (c + 1) d) (hq2 : jsGet js d = '"')
    (hws2 : Ws js (d + 1) e) (hcl : jsGet js e = ':') (hws3 : Ws js (e + 1) p)
    (hval : J js .value p g 0 tv) (hws4 : Ws js g b)
    (ih : JMotive js len cap .value p g 0 tv) :
    JMotive js len cap .membs a b 1
      ({ type := .JSMN_STRING, start := (c : Int) + 1, end_ := (d : Int), size := 1 }
        :: tv) := by
  dsimp only [JMotive] at ih ⊢
  intro Q qn ct R tn count fu fu2 hqn htn hst hen hty hR hcap hble hdel hf hf2
  subst hqn
  subst htn
  have hac : a ≤ c := hws1.1
  have hcd : c + 1 ≤ d := SContent_le hsc
  have hde : d + 1 ≤ e := hws2.1
  have hep : e + 1 ≤ p := hws3.1
  have hpg : p ≤ g := J_le hval
  have hgb : g ≤ b := hws4.1
  have hdlen : d < len := by omega
  have hafterv : g = len ∨ delimByte (jsGet js g) := by
    rcases Nat.eq_or_lt_of_le hgb with heq | hlt
    · subst heq
      exact Or.inr hdel
    · exact Or.inr (wsByte_delim (hws4.2 g le_rfl hlt))
  obtain ⟨sup2, hsup2, hsim⟩ := ih
    (Q ++ { ct with size := ct.size + 1 } ::
      (R ++ [{ type := Jsmntype.JSMN_STRING, start := (c : Int) + 1, end_ := (d : Int), size := 0 }]))
    (Q.length + 1 + R.length + 1)
    ((Q.length + 1 + R.length : Nat) : Int) (count + 1) (len + 1) (len + 1)
    (by simp only [List.length_append, List.length_cons, List.length_singleton, List.length_nil]; omega)
    (by intro h
        simp only [Int.toNat_natCast, List.length_append, List.length_cons,
          List.length_singleton]
        omega)
    (by simp only [List.length_append, List.length_cons, List.length_singleton,
          List.length_nil] at hcap ⊢
        omega)
    (by omega) hafterv (by omega) (by omega)
  refine ⟨sup2, ?_⟩
  refine Eq.trans (ws_run js len cap (c - a) a c _ _ _ count fu (len + 1) le_rfl hws1
    (by omega) hf (by omega)) ?_
  refine Eq.trans (step_string (Q ++ ct :: R) (Q.length + 1 + R.length) count
    (len + 1) (len + 1)
    (by simp only [List.length_append, List.length_cons]; omega)
    hq1 hsc hq2 hdlen
    (by intro h
        simp only [Int.toNat_natCast, List.length_append, List.length_cons]
        omega)
    (by simp only [List.length_cons] at hcap
        simp only [List.length_append, List.length_cons]
        omega)
    (by omega) (by omega)) ?_
  rw [show sizeIncr (Q ++ ct :: R) ((Q.length : Int)) =
      Q ++ { ct with size := ct.size + 1 } :: R from by
    rw [sizeIncr, if_pos (by omega : (Q.length : Int) ≠ -1),
      show ((Q.length : Int)).toNat = Q.length from rfl]
    exact updTok_append_mid Q R ct _]
  rw [List.append_assoc, List.cons_append]
  refine Eq.trans (ws_run js len cap (e - (d + 1)) (d + 1) e _ _ _ _ (len + 1) (len + 1)
    le_rfl hws2 (by omega) (by omega) (by omega)) ?_
  refine Eq.trans (step_colon (Q.length + 1 + R.length + 1)
    ((Q.length : Int)) _ _ (len + 1) (len + 1) hcl (by omega) (by omega) (by omega)) ?_
  rw [show ((Q.length + 1 + R.length + 1 : Nat) : Int) - 1 =
    ((Q.length + 1 + R.length : Nat) : Int) from by push_cast; ring]
  refine Eq.trans (ws_run js len cap (p - (e + 1)) (e + 1) p _ _ _ _ (len + 1) (len + 1)
    le_rfl hws3 (by omega) (by omega) (by omega)) ?_
  refine Eq.trans hsim ?_
  rw [show sizeIncr
      (Q ++ { ct with size := ct.size + 1 } ::
        (R ++ [{ type := Jsmntype.JSMN_STRING, start := (c : Int) + 1, end_ := (d : Int), size := 0 }]))
      ((Q.length + 1 + R.length : Nat) : Int) =
      Q ++ { ct with size := ct.size + 1 } ::
        (R ++ [{ type := Jsmntype.JSMN_STRING, start := (c : Int) + 1, end_ := (d : Int), size := 1 }]) from by
    rw [sizeIncr, if_pos (by omega : ((Q.length + 1 + R.length : Nat) : Int) ≠ -1),
      show (((Q.length + 1 + R.length : Nat) : Int)).toNat = Q.length + 1 + R.length
        from rfl,
      show Q ++ { ct with size := ct.size + 1 } ::
          (R ++ [{ type := Jsmntype.JSMN_STRING, start := (c : Int) + 1, end_ := (d : Int), size := 0 }]) =
        (Q ++ { ct with size := ct.size + 1 } :: R) ++
          [{ type := Jsmntype.JSMN_STRING, start := (c : Int) + 1, end_ := (d : Int), size := 0 }] from by simp,
      updTok_append_length2 _ _
        (by simp only [List.length_append, List.length_cons]; omega) _]
    simp]
  refine Eq.trans (ws_run js len cap (b - g) g b _ _ _ _ (len + 1) fu2
    le_rfl hws4 hble (by omega) hf2) ?_
  exact parseLoopF_congr js len cap fu2 rfl
    (by simp only [List.length_cons]; omega)
    rfl
    (by simp only [List.append_assoc, List.cons_append, List.singleton_append,
      List.nil_append, Nat.cast_one])
    (by simp only [List.length_cons]; omega)


lemma sim_mcons (js : List Char) (len cap : Nat) (a c d e p g h2 b n : Nat)
    (tv tvs : List Jsmntok)
    (hws1 : Ws js a c)
    (hq1 : jsGet js c = '"') (hsc : SContent js (c + 1) d) (hq2 : jsGet js d = '"')
    (hws2 : Ws js (d + 1) e) (hcl : jsGet js e = ':') (hws3 : Ws js (e + 1) p)
    (hval : J js .value p g 0 tv) (hws4 : Ws js g h2)
    (hcm : jsGet js h2 = ',') (htail : J js .membs (h2 + 1) b n tvs)
    (ihval : JMotive js len cap .value p g 0 tv)
    (ihtail : JMotive js len cap .membs (h2 + 1) b n tvs) :
    JMotive js len cap .membs a b (n + 1)
      ({ type := .JSMN_STRING, start := (c : Int) + 1, end_ := (d : Int), size := 1 }
        :: (tv ++ tvs)) := by
  dsimp only [JMotive] at ihval ihtail ⊢
  intro Q qn ct R tn count fu fu2 hqn htn hst hen hty hR hcap hble hdel hf hf2
  subst hqn
  subst htn
  have hac : a ≤ c := hws1.1
  have hcd : c + 1 ≤ d := SContent_le hsc
  have hde : d + 1 ≤ e := hws2.1
  have hep : e + 1 ≤ p := hws3.1
  have hpg : p ≤ g := J_le hval
  have hgh : g ≤ h2 := hws4.1
  have hh2b : h2 < b := by have := J_le htail; omega
  have hh2len : h2 < len := by omega
  have hdlen : d < len := by omega
  have hafterv : g = len ∨ delimByte (jsGet js g) := by
    rcases Nat.eq_or_lt_of_le hgh with heq | hlt
    · subst heq
      exact Or.inr (Or.inr (Or.inr (Or.inr (Or.inr (Or.inr (Or.inl hcm))))))
    · exact Or.inr (wsByte_delim (hws4.2 g le_rfl hlt))
  obtain ⟨sup2, hsup2, hsim⟩ := ihval
    (Q ++ { ct with size := ct.size + 1 } ::
      (R ++ [{ type := Jsmntype.JSMN_STRING, start := (c : Int) + 1, end_ := (d : Int), size := 0 }]))
    (Q.length + 1 + R.length + 1)
    ((Q.length + 1 + R.length : Nat) : Int) (count + 1) (len + 1) (len + 1)
    (by simp only [List.length_append, List.length_cons, List.length_singleton, List.length_nil]; omega)
    (by intro h
        simp only [Int.toNat_natCast, List.length_append, List.length_cons,
          List.length_singleton, List.length_nil]
        omega)
    (by simp only [List.length_append, List.length_cons, List.length_singleton,
          List.length_nil] at hcap ⊢
        omega)
    (by omega) hafterv (by omega) (by omega)
  obtain ⟨sup3, hsim3⟩ := ihtail Q Q.length { ct with size := ct.size + 1 }
    (R ++ ({ type := Jsmntype.JSMN_STRING, start := (c : Int) + 1, end_ := (d : Int), size := 1 } :: tv))
    (Q.length + 1 + R.length + 1 + tv.length)
    (count + 1 + (tv.length : Int)) (len + 1) fu2
    rfl
    (by simp only [List.length_append, List.length_cons]; omega)
    hst hen hty
    (by intro t ht
        rcases List.mem_append.mp ht with h | h
        · exact hR t h
        · rcases List.mem_cons.mp h with heq | h
          · subst heq
            exact ⟨by first | (dsimp only; omega) | omega,
              by first | (dsimp only; omega) | omega⟩
          · exact J_tokens_closed hval t h)
    (by simp only [List.length_append, List.length_cons] at hcap ⊢; omega)
    hble hdel (by omega) hf2
  refine ⟨sup3, ?_⟩
  refine Eq.trans (ws_run js len cap (c - a) a c _ _ _ count fu (len + 1) le_rfl hws1
    (by omega) hf (by omega)) ?_
  refine Eq.trans (step_string (Q ++ ct :: R) (Q.length + 1 + R.length) count
    (len + 1) (len + 1)
    (by simp only [List.length_append, List.length_cons]; omega)
    hq1 hsc hq2 hdlen
    (by intro h
        simp only [Int.toNat_natCast, List.length_append, List.length_cons]
        omega)
    (by simp only [List.length_cons] at hcap
        simp only [List.length_append, List.length_cons]
        omega)
    (by omega) (by omega)) ?_
  rw [show sizeIncr (Q ++ ct :: R) ((Q.length : Int)) =
      Q ++ { ct with size := ct.size + 1 } :: R from by
    rw [sizeIncr, if_pos (by omega : (Q.length : Int) ≠ -1),
      show ((Q.length : Int)).toNat = Q.length from rfl]
    exact updTok_append_mid Q R ct _]
  rw [List.append_assoc, List.cons_append]
  refine Eq.trans (ws_run js len cap (e - (d + 1)) (d + 1) e _ _ _ _ (len + 1) (len + 1)
    le_rfl hws2 (by omega) (by omega) (by omega)) ?_
  refine Eq.trans (step_colon (Q.length + 1 + R.length + 1)
    ((Q.length : Int)) _ _ (len + 1) (len + 1) hcl (by omega) (by omega) (by omega)) ?_
  rw [show ((Q.length + 1 + R.length + 1 : Nat) : Int) - 1 =
    ((Q.length + 1 + R.length : Nat) : Int) from by push_cast; ring]
  refine Eq.trans (ws_run js len cap (p - (e + 1)) (e + 1) p _ _ _ _ (len + 1) (len + 1)
    le_rfl hws3 (by omega) (by omega) (by omega)) ?_
  refine Eq.trans hsim ?_
  rw [show sizeIncr
      (Q ++ { ct with size := ct.size + 1 } ::
        (R ++ [{ type := Jsmntype.JSMN_STRING, start := (c : Int) + 1, end_ := (d : Int), size := 0 }]))
      ((Q.length + 1 + R.length : Nat) : Int) =
      Q ++ { ct with size := ct.size + 1 } ::
        (R ++ [{ type := Jsmntype.JSMN_STRING, start := (c : Int) + 1, end_ := (d : Int), size := 1 }]) from by
    rw [sizeIncr, if_pos (by omega : ((Q.length + 1 + R.length : Nat) : Int) ≠ -1),
      show (((Q.length + 1 + R.length : Nat) : Int)).toNat = Q.length + 1 + R.length
        from rfl,
      show Q ++ { ct with size := ct.size + 1 } ::
          (R ++ [{ type := Jsmntype.JSMN_STRING, start := (c : Int) + 1, end_ := (d : Int), size := 0 }]) =
        (Q ++ { ct with size := ct.size + 1 } :: R) ++
          [{ type := Jsmntype.JSMN_STRING, start := (c : Int) + 1, end_ := (d : Int), size := 0 }] from by simp,
      updTok_append_length2 _ _
        (by simp only [List.length_append, List.length_cons]; omega) _]
    simp]
  refine Eq.trans (ws_run js len cap (h2 - g) g h2 _ _ _ _ (len + 1) (len + 1)
    le_rfl hws4 (by omega) (by omega) (by omega)) ?_
  simp only [List.append_assoc, List.cons_append, List.singleton_append]
  rcases hsup2 with hc1 | hc2
  · subst hc1
    refine Eq.trans (step_comma_fc (Q.length + 1 + R.length) Q Q.length
      (Q.length + 1 + R.length + 1 + tv.length) { ct with size := ct.size + 1 }
      (R ++ ({ type := Jsmntype.JSMN_STRING, start := (c : Int) + 1, end_ := (d : Int), size := 1 } :: tv))
      (count + 1 + (tv.length : Int)) (len + 1) (len + 1)
      rfl (by simp only [List.length_append, List.length_cons]; omega)
      hcm hh2len
      (by rw [show Q ++ { ct with size := ct.size + 1 } ::
            (R ++ ({ type := Jsmntype.JSMN_STRING, start := (c : Int) + 1, end_ := (d : Int), size := 1 } :: tv)) =
          (Q ++ { ct with size := ct.size + 1 } :: R) ++
            ({ type := Jsmntype.JSMN_STRING, start := (c : Int) + 1, end_ := (d : Int), size := 1 } :: tv)
          from by simp,
          getTok_mid2 _ _ _ _
            (by simp only [List.length_append, List.length_cons]; omega)])
      (Or.inr hty)
      ⟨hst, hen⟩
      (by intro t ht hx
          rcases List.mem_append.mp ht with h | h
          · exact (hR t h).2 hx.2
          · rcases List.mem_cons.mp h with heq | h
            · subst heq
              have h2x := hx.2
              first
              | (dsimp only at h2x; omega)
              | omega
            · exact (J_tokens_closed hval t h).2 hx.2)
      (by omega) (by omega)) ?_
    refine Eq.trans hsim3 ?_
    exact parseLoopF_congr js len cap fu2 rfl
      (by simp only [List.length_cons, List.length_append]; omega)
      rfl
      (by simp only [List.append_assoc, List.cons_append]
          exact cons_congr_head _ _ (tok_upd_size_congr ct (by first | (dsimp only; push_cast; ring) | (push_cast; ring))))
      (by simp only [List.length_cons, List.length_append]; push_cast; ring)
  · have hfo2 : findOpen
        (Q ++ { ct with size := ct.size + 1 } ::
          (R ++ [{ type := Jsmntype.JSMN_STRING, start := (c : Int) + 1, end_ := (d : Int), size := 0 }]))
        (Q.length + 1 + R.length + 1) = some Q.length := by
      rw [show Q.length + 1 + R.length + 1 =
        Q.length + 1 +
          (R ++ [({ type := Jsmntype.JSMN_STRING, start := (c : Int) + 1, end_ := (d : Int), size := 0 } : Jsmntok)]).length
        from by simp only [List.length_append, List.length_singleton]; omega]
      exact findOpen_mid Q _ _
        (by intro t ht hx
            rcases List.mem_append.mp ht with h | h
            · exact (hR t h).2 hx.2
            · rw [List.mem_singleton.mp h] at hx
              have h2x := hx.2
              first
              | (dsimp only at h2x; omega)
              | omega)
        ⟨hst, hen⟩
    have hc2e : sup2 = (Q.length : Int) := by
      rw [hc2, hfo2]
      rfl
    subst hc2e
    refine Eq.trans (step_comma_keep Q.length (Q.length + 1 + R.length + 1 + tv.length)
      (Q ++ { ct with size := ct.size + 1 } ::
        (R ++ ({ type := Jsmntype.JSMN_STRING, start := (c : Int) + 1, end_ := (d : Int), size := 1 } :: tv)))
      (count + 1 + (tv.length : Int)) (len + 1) (len + 1) hcm hh2len
      (Or.inr (by rw [getTok_mid]; exact hty))
      (by omega) (by omega)) ?_
    refine Eq.trans hsim3 ?_
    exact parseLoopF_congr js len cap fu2 rfl
      (by simp only [List.length_cons, List.length_append]; omega)
      rfl
      (by simp only [List.append_assoc, List.cons_append]
          exact cons_congr_head _ _ (tok_upd_size_congr ct (by first | (dsimp only; push_cast; ring) | (push_cast; ring))))
      (by simp only [List.length_cons, List.length_append]; push_cast; ring)


lemma J_sim (js : List Char) (len cap : Nat) :
    ∀ {fm : JForm} {a b n : Nat} {tv : List Jsmntok}, J js fm a b n tv →
      JMotive js len cap fm a b n tv := by
  intro fm a b n tv h
  induction h with
  | prim a b hab hp => exact sim_prim js len cap a b hab hp
  | str a b hq1 hsc hq2 => exact sim_str js len cap a b hq1 hsc hq2
  | arr a b n tv ha he hb ih => exact sim_arr js len cap a b n tv ha hb he ih
  | obj a b n tv ha hm hb ih => exact sim_obj js len cap a b n tv ha hb hm ih
  | enil a b hws => exact sim_enil js len cap a b hws
  | eone a c d b tv hws1 hv hws2 ih =>
    exact sim_eone js len cap a c d b tv hws1 hv hws2 ih
  | econs a c d e b n tv tvs hws1 hv hws2 hcm ht hn ih1 ih2 =>
    exact sim_econs js len cap a c d e b n tv tvs hws1 hv hws2 hcm ht ih1 ih2
  | mnil a b hws => exact sim_mnil js len cap a b hws
  | mone a c d e p g b tv hws1 hq1 hsc hq2 hws2 hcl hws3 hv hws4 ih =>
    exact sim_mone js len cap a c d e p g b tv hws1 hq1 hsc hq2 hws2 hcl hws3 hv hws4 ih
  | mcons a c d e p g h2 b n tv tvs hws1 hq1 hsc hq2 hws2 hcl hws3 hv hws4 hcm ht hn ih1 ih2 =>
    exact sim_mcons js len cap a c d e p g h2 b n tv tvs hws1 hq1 hsc hq2 hws2 hcl hws3
      hv hws4 hcm ht ih1 ih2


/-- C1: for every valid JSON document (a whitespace-padded value whose
grammar derivation `J` lists the tokens a correct tokenizer emits, with
byte-exact `[start, end)` spans, quotes excluded for strings) and every
pool capacity at least the number of its structural and leaf elements,
`jsmn_parse` from a fresh state returns exactly that count and fills the
pool with exactly those tokens. -/
theorem spec_C1 (js : List Char) (len cap a b : Nat) (tv : List Jsmntok)
    (hws1 : Ws js 0 a) (hJ : J js .value a b 0 tv) (hws2 : Ws js b len)
    (hcap : tv.length ≤ cap) :
    (jsmn_parse jsmn_init js len (some []) cap).1 = (tv.length : Int) ∧
    (jsmn_parse jsmn_init js len (some []) cap).2.2 = some tv := by
  have hble : b ≤ len := hws2.1
  have hab : a ≤ b := J_le hJ
  have hmot := J_sim js len cap hJ
  dsimp only [JMotive] at hmot
  have hafter : b = len ∨ delimByte (jsGet js b) := by
    rcases Nat.eq_or_lt_of_le hble with heq | hlt
    · exact Or.inl heq
    · exact Or.inr (wsByte_delim (hws2.2 b le_rfl hlt))
  obtain ⟨sup2, hsup2, hsim⟩ := hmot [] 0 (-1) 0 (len + 1) (len + 1)
    rfl (fun h => absurd rfl h) (by simp only [List.length_nil]; omega)
    hble hafter (by omega) (by omega)
  have hparse : jsmn_parse jsmn_init js len (some []) cap =
      parseLoopF js len cap (len + 1) { pos := 0, toknext := 0, toksuper := -1 }
        (some []) 0 := rfl
  have e1 := ws_run js len cap a 0 a 0 (-1) (some []) 0 (len + 1) (len + 1)
    (by omega) hws1 (by omega) (by omega) (by omega)
  have e3 := ws_run js len cap (len - b) b len (0 + tv.length) sup2 (some tv)
    (0 + (tv.length : Int)) (len + 1) 1 (by omega) hws2 le_rfl (by omega) (by omega)
  have e4 := @step_exit js len cap (0 + tv.length) sup2 tv
    (0 + (tv.length : Int)) 1
    (findOpen_eq_none (J_tokens_closed hJ) (by omega)) (by omega)
  have efin := hparse.trans (e1.trans (hsim.trans (e3.trans e4)))
  constructor
  · rw [efin]
    show 0 + (tv.length : Int) = (tv.length : Int)
    omega
  · rw [efin]


/-- Witness for C1: the document `{"a":1}` parses to exactly 3 tokens:
the Object (span `[0,7)`, one member), the key String (span `[2,3)`,
one value) and the Primitive `1` (span `[5,6)`). -/
theorem spec_C1_witness :
    (jsmn_parse jsmn_init c1js 7 (some []) 3).1 = 3 ∧
    (jsmn_parse jsmn_init c1js 7 (some []) 3).2.2 =
      some [{ type := .JSMN_OBJECT, start := 0, end_ := 7, size := 1 },
        { type := .JSMN_STRING, start := 2, end_ := 3, size := 1 },
        { type := .JSMN_PRIMITIVE, start := 5, end_ := 6, size := 0 }] := by
  have hwse : ∀ x : Nat, Ws c1js x x :=
    fun x => ⟨le_rfl, fun k h1 h2 => absurd h2 (by omega)⟩
  have hsc : SContent c1js 2 3 :=
    SContent.plain 2 3 (by decide) (by decide) (by decide) (SContent.nil 3)
  have hprim : J c1js .value 5 6 0
      [{ type := .JSMN_PRIMITIVE, start := (5 : Int), end_ := (6 : Int), size := 0 }] :=
    J.prim 5 6 (by omega) (fun k h1 h2 => by
      have hk : k = 5 := by omega
      subst hk
      exact ⟨by decide, by decide, by decide, by decide, by decide, by decide, by decide,
        by decide, by decide, by decide⟩)
  have hm : J c1js .membs 1 6 1
      ({ type := .JSMN_STRING, start := (1 : Int) + 1, end_ := (3 : Int), size := 1 } ::
        [{ type := .JSMN_PRIMITIVE, start := (5 : Int), end_ := (6 : Int), size := 0 }]) :=
    J.mone 1 1 3 4 5 6 6 _ (hwse 1) rfl hsc rfl (hwse 4) rfl (hwse 5) hprim (hwse 6)
  have hJ : J c1js .value 0 7 0
      ({ type := .JSMN_OBJECT, start := (0 : Int), end_ := (6 : Int) + 1, size := (1 : Int) } ::
        ({ type := .JSMN_STRING, start := (1 : Int) + 1, end_ := (3 : Int), size := 1 } ::
          [{ type := .JSMN_PRIMITIVE, start := (5 : Int), end_ := (6 : Int), size := 0 }])) :=
    J.obj 0 6 1 _ rfl hm rfl
  obtain ⟨h1, h2⟩ := spec_C1 c1js 7 3 0 7 _ (hwse 0) hJ (hwse 7) (by decide)
  constructor
  · rw [h1]
    decide
  · rw [h2]
    decide

end Jsmn
